import Mathlib

/-!
# ChaosMod effect dispatcher

A shallow embedding of `ChaosMod/EffectDispatcher.cpp` and a verification
development over it.

Modelling conventions.

* `EffectType` values are integers (the enum is produced by a cast from the
  integer returned by `GAMEPLAY::GET_RANDOM_INT_IN_RANGE`).
* The catalog `Effect` (a map declared outside this translation unit) is a
  parameter `EffectType → Option EffectInfo`; `Effect.at` throws on a missing
  key, which is the `none` result of `DispatchRandomEffect`.
* The executor `m_effects` is observed through the sequence of calls made on it.
* `ActiveEffect::Timer` is an `int` whose declaration lives in the header; its
  values are integers of `Int`. `UpdateEffects.loop` takes `Timer--` on the
  integers, which is exact unless a timer holds the minimum of the 32-bit type,
  a value no sequence of operations produces. `UpdateEffects.loopInt32` is the
  same loop with the decrement of the 32-bit type, which wraps from the minimum
  to the maximum; it is used where timer values are forced from outside.
* `DWORD64` tick counts are naturals, subtraction is taken modulo `2 ^ 64`.
* `float` values are the rationals they denote; every `float` operation rounds
  its exact result with `f32Round` (round to nearest, ties to even, 24-bit
  significand; the exponent range is not limited, which is exact for every
  value these functions can produce from 64-bit tick counts).
* Function-local `static` variables are explicit fields of the state; `none`
  means that the initialiser has not run yet.
* The `_DEBUG`-only log file of `DispatchRandomEffect` is left out.
* The game natives called by `Draw` are observed as the list of calls made, with
  their arguments.
-/

namespace ChaosMod

/-- Identifier of an effect kind (`enum EffectType`). -/
abbrev EffectType := Int

/-- Catalog entry (`struct EffectInfo`). -/
structure EffectInfo where
  Name : String
  IsTimed : Bool
  Duration : Int
deriving DecidableEq, Repr

/-- One running effect (`struct ActiveEffect`). -/
structure ActiveEffect where
  EffectType : ChaosMod.EffectType
  Name : String
  Timer : Int
deriving DecidableEq, Repr

/-- Calls received by the executor object behind `m_effects`. -/
inductive EffectsCall where
  | New
  | StartEffect (effectType : ChaosMod.EffectType)
  | StopEffect (effectType : ChaosMod.EffectType)
  | UpdateEffects
  | Delete
deriving DecidableEq, Repr

/-- State of an `EffectDispatcher` together with the two function-local statics. -/
structure EffectDispatcher where
  m_percentage : ℚ
  m_effects : List EffectsCall
  m_activeEffects : List ActiveEffect
  UpdateTimer_pastUpdateTime : Option Nat
  UpdateEffects_pastUpdateTime : Option Nat
deriving DecidableEq

/-- Constructor: `m_percentage(.0f), m_effects(new Effects())`. -/
def EffectDispatcher.ctor : EffectDispatcher :=
  { m_percentage := 0
    m_effects := [EffectsCall.New]
    m_activeEffects := []
    UpdateTimer_pastUpdateTime := none
    UpdateEffects_pastUpdateTime := none }

/-- The range-for loop of `DispatchRandomEffect` (lines 107-115): the first entry
with the drawn identifier gets `Timer = 180` and the loop breaks. The boolean is
`alreadyExists`. -/
def DispatchRandomEffect.loop (effectType : EffectType) :
    List ActiveEffect → Bool × List ActiveEffect
  | [] => (false, [])
  | effect :: rest =>
    if effect.EffectType = effectType then
      (true, { effect with Timer := 180 } :: rest)
    else
      ((DispatchRandomEffect.loop effectType rest).1,
        effect :: (DispatchRandomEffect.loop effectType rest).2)

/-- `EffectDispatcher::DispatchRandomEffect`; `rnd` is the value returned by
`GAMEPLAY::GET_RANDOM_INT_IN_RANGE(0, _EFFECT_ENUM_MAX - 1)`. -/
def DispatchRandomEffect (Effect : EffectType → Option EffectInfo) (rnd : Int)
    (d : EffectDispatcher) : Option EffectDispatcher :=
  let effectType : EffectType := rnd
  match Effect effectType with
  | none => none
  | some effectInfo =>
    let found : Bool × List ActiveEffect :=
      if effectInfo.IsTimed then DispatchRandomEffect.loop effectType d.m_activeEffects
      else (false, d.m_activeEffects)
    let alreadyExists := found.1
    if !alreadyExists then
      some { d with
        m_effects := d.m_effects ++ [EffectsCall.StartEffect effectType]
        m_activeEffects := found.2 ++
          [{ EffectType := effectType, Name := effectInfo.Name,
             Timer := if effectInfo.IsTimed then effectInfo.Duration else -1 }]
        m_percentage := 0 }
    else
      some { d with m_activeEffects := found.2, m_percentage := 0 }

/-- The iterator loop of `UpdateEffects` (lines 70-90). `it` is the position of
the iterator in the vector, `fuel` bounds the number of iterations; `none` is
returned when the fuel runs out or the iterator is past the end. -/
def UpdateEffects.loop : Nat → List ActiveEffect → Nat → List EffectsCall →
    Option (List ActiveEffect × List EffectsCall)
  | 0, _, _, _ => none
  | fuel + 1, v, it, calls =>
    if it = v.length then some (v, calls)
    else
      match v[it]? with
      | none => none
      | some effect =>
        let effect1 : ActiveEffect := { effect with Timer := effect.Timer - 1 }
        let v1 := v.set it effect1
        if effect1.Timer = 0 then
          UpdateEffects.loop fuel (v1.eraseIdx it) it
            (calls ++ [EffectsCall.StopEffect effect1.EffectType])
        else if effect1.Timer ≤ -180 then
          UpdateEffects.loop fuel (v1.eraseIdx it) it calls
        else
          UpdateEffects.loop fuel v1 (it + 1) calls

/-- The body of the `if` of `UpdateEffects` after the assignment to the static
(lines 70-90): one sweep over `m_activeEffects`. The loop needs one iteration per
entry and one more test of `it != end()`. -/
def UpdateEffects.sweep (d : EffectDispatcher) : Option EffectDispatcher :=
  match UpdateEffects.loop (d.m_activeEffects.length + 1) d.m_activeEffects 0 d.m_effects with
  | none => none
  | some (v, calls) => some { d with m_activeEffects := v, m_effects := calls }

/-- Subtraction of two `DWORD64` values. -/
def subDWORD64 (a b : Nat) : Nat := (a % 2 ^ 64 + (2 ^ 64 - b % 2 ^ 64)) % 2 ^ 64

/-- `EffectDispatcher::UpdateEffects`. `tickInit` is the value `GetTickCount64()`
returns in the initialiser of the static (read only on the first call),
`tickNow` the value it returns for `currentUpdateTime`. -/
def UpdateEffects (tickInit tickNow : Nat) (d : EffectDispatcher) : Option EffectDispatcher :=
  let d1 := { d with m_effects := d.m_effects ++ [EffectsCall.UpdateEffects] }
  let pastUpdateTime := d1.UpdateEffects_pastUpdateTime.getD tickInit
  let currentUpdateTime := tickNow
  if subDWORD64 currentUpdateTime pastUpdateTime > 1000 then
    UpdateEffects.sweep { d1 with UpdateEffects_pastUpdateTime := some currentUpdateTime }
  else
    some { d1 with UpdateEffects_pastUpdateTime := some pastUpdateTime }

/-- `EffectDispatcher::ClearEffects`. -/
def ClearEffects (d : EffectDispatcher) : EffectDispatcher :=
  { d with
    m_effects := d.m_effects ++ d.m_activeEffects.map (fun effect => EffectsCall.StopEffect effect.EffectType)
    m_activeEffects := [] }

/-- Destructor `EffectDispatcher::~EffectDispatcher`: `ClearEffects(); delete m_effects;`. -/
def EffectDispatcher.dtor (d : EffectDispatcher) : EffectDispatcher :=
  let d1 := ClearEffects d
  { d1 with m_effects := d1.m_effects ++ [EffectsCall.Delete] }

/-- Rounding of a nonnegative rational to the nearest integer, ties to the even one. -/
def roundHalfEven (q : ℚ) : Int :=
  if q - ⌊q⌋ < 1 / 2 then ⌊q⌋
  else if 1 / 2 < q - ⌊q⌋ then ⌊q⌋ + 1
  else if ⌊q⌋ % 2 = 0 then ⌊q⌋ else ⌊q⌋ + 1

/-- Rounding of a positive rational to the nearest `float` (24-bit significand,
ties to even): with `e = ⌊log₂ q⌋` the spacing of the format around `q` is
`2 ^ (e - 23)`. -/
def f32RoundPos (q : ℚ) : ℚ :=
  (roundHalfEven (q / 2 ^ (Int.log 2 q - 23)) : ℚ) * 2 ^ (Int.log 2 q - 23)

/-- Rounding of an exact result to `float`. -/
def f32Round (q : ℚ) : ℚ :=
  if q = 0 then 0 else if 0 < q then f32RoundPos q else -f32RoundPos (-q)

/-- The value assigned to `m_percentage` in `UpdateTimer`: the `DWORD64`
difference is converted to `float` and divided by `60000.f`. -/
def UpdateTimer.percentage (elapsed : Nat) : ℚ :=
  f32Round (f32Round (elapsed : ℚ) / 60000)

/-- `EffectDispatcher::UpdateTimer`. `tickInit` is the value `GetTickCount64()`
returns in the initialiser of the static (read only on the first call),
`tickNow` the value it returns for `currentUpdateTime`, `rnd` the random draw
consumed when `DispatchRandomEffect` is called. -/
def UpdateTimer (Effect : EffectType → Option EffectInfo) (tickInit tickNow : Nat) (rnd : Int)
    (d : EffectDispatcher) : Option EffectDispatcher :=
  let pastUpdateTime := d.UpdateTimer_pastUpdateTime.getD tickInit
  let currentUpdateTime := tickNow
  let d1 := { d with
    m_percentage := UpdateTimer.percentage (subDWORD64 currentUpdateTime pastUpdateTime) }
  if d1.m_percentage > 1 then
    DispatchRandomEffect Effect rnd { d1 with UpdateTimer_pastUpdateTime := some currentUpdateTime }
  else
    some { d1 with UpdateTimer_pastUpdateTime := some pastUpdateTime }

/-- The operations a host can perform on a dispatcher, with the values the
external collaborators (clock, random source) return during the call. -/
inductive Op where
  | dispatch (rnd : Int)
  | sweep
  | updateEffects (tickInit tickNow : Nat)
  | updateTimer (tickInit tickNow : Nat) (rnd : Int)
  | clear
deriving DecidableEq, Repr

/-- One operation. -/
def Op.apply (Effect : EffectType → Option EffectInfo) (d : EffectDispatcher) :
    Op → Option EffectDispatcher
  | Op.dispatch rnd => DispatchRandomEffect Effect rnd d
  | Op.sweep => UpdateEffects.sweep d
  | Op.updateEffects tickInit tickNow => UpdateEffects tickInit tickNow d
  | Op.updateTimer tickInit tickNow rnd => UpdateTimer Effect tickInit tickNow rnd d
  | Op.clear => some (ClearEffects d)

/-- A sequence of operations, from left to right. -/
def run (Effect : EffectType → Option EffectInfo) :
    List Op → EffectDispatcher → Option EffectDispatcher
  | [], d => some d
  | op :: ops, d =>
    match Op.apply Effect d op with
    | none => none
    | some d1 => run Effect ops d1

/-- `n` consecutive sweeps. -/
def sweeps : Nat → EffectDispatcher → Option EffectDispatcher
  | 0, d => some d
  | n + 1, d =>
    match UpdateEffects.sweep d with
    | none => none
    | some d1 => sweeps n d1

/-- No two entries at different positions carry the same identifier when the
catalog descriptor of that identifier is timed. -/
def NoDupTimed (Effect : EffectType → Option EffectInfo) (l : List ActiveEffect) : Prop :=
  l.Pairwise (fun a b => a.EffectType = b.EffectType →
    ∀ info, Effect a.EffectType = some info → info.IsTimed = false)

/-- Decrement of one entry's timer (`effect.Timer--`). -/
def decTimer (effect : ActiveEffect) : ActiveEffect :=
  { effect with Timer := effect.Timer - 1 }

/-- Reference for one sweep, following the specification's words: every timer is
decremented by one, then the entries whose new timer is `0` or `<= -180` are
filtered out, in the original order. -/
def sweepRef (l : List ActiveEffect) : List ActiveEffect :=
  (l.map decTimer).filter (fun effect => !(decide (effect.Timer = 0)) && !(decide (effect.Timer ≤ -180)))

/-- Reference for the stop calls of one sweep: one per entry whose timer before
the sweep is `1`, in collection order. -/
def sweepStops (l : List ActiveEffect) : List EffectsCall :=
  (l.filter (fun effect => decide (effect.Timer = 1))).map
    (fun effect => EffectsCall.StopEffect effect.EffectType)

/-- Reference for the stop calls of `n` consecutive sweeps. -/
def sweepStopsN : Nat → List ActiveEffect → List EffectsCall
  | 0, _ => []
  | n + 1, l => sweepStops l ++ sweepStopsN n (sweepRef l)

/-- Example catalog: `0` is the timed effect "A" of duration 10, `1` the
non-timed effect "B". -/
def catalogAB : EffectType → Option EffectInfo
  | 0 => some { Name := "A", IsTimed := true, Duration := 10 }
  | 1 => some { Name := "B", IsTimed := false, Duration := 0 }
  | _ => none

/-- The bounds `DispatchRandomEffect` passes to `GAMEPLAY::GET_RANDOM_INT_IN_RANGE`
(line 96); `EFFECT_ENUM_MAX` stands for the enum's `_EFFECT_ENUM_MAX`. -/
def DispatchRandomEffect.randomRange (EFFECT_ENUM_MAX : Int) : Int × Int :=
  (0, EFFECT_ENUM_MAX - 1)

/-- Number of `StartEffect` calls for `x` in an executor log. -/
def startCount (x : EffectType) (calls : List EffectsCall) : Nat :=
  calls.count (EffectsCall.StartEffect x)

/-- Number of `StopEffect` calls for `x` in an executor log. -/
def stopCount (x : EffectType) (calls : List EffectsCall) : Nat :=
  calls.count (EffectsCall.StopEffect x)

/-- Number of entries for `x` in a collection. -/
def activeCount (x : EffectType) (l : List ActiveEffect) : Nat :=
  l.countP (fun a => decide (a.EffectType = x))

/-- For every timed identifier, the starts are the stops plus the entries
currently in the collection. -/
def Balanced (Effect : EffectType → Option EffectInfo) (d : EffectDispatcher) : Prop :=
  ∀ x info, Effect x = some info → info.IsTimed = true →
    startCount x d.m_effects = stopCount x d.m_effects + activeCount x d.m_activeEffects

/-- The timer of an entry is in the range of its kind: `[1, max Duration 180]`
for a timed identifier, `[-179, -1]` for a non-timed one. -/
def TimerInRange (Effect : EffectType → Option EffectInfo) (a : ActiveEffect) : Prop :=
  ∃ info, Effect a.EffectType = some info ∧
    (info.IsTimed = true → 1 ≤ a.Timer ∧ a.Timer ≤ max info.Duration 180) ∧
    (info.IsTimed = false → -179 ≤ a.Timer ∧ a.Timer ≤ -1)

/-- Every timed descriptor of the catalog has a duration of at least one tick. -/
def DurationsPositive (Effect : EffectType → Option EffectInfo) : Prop :=
  ∀ x info, Effect x = some info → info.IsTimed = true → 1 ≤ info.Duration

/-- Calls to the game's natives (`GRAPHICS::` and `UI::`) issued by `Draw`. -/
inductive NativeCall where
  | DRAW_RECT (x y width height : ℚ) (r g b a : Int)
  | BEGIN_TEXT_COMMAND_DISPLAY_TEXT (text : String)
  | ADD_TEXT_COMPONENT_SUBSTRING_PLAYER_NAME (text : String)
  | SET_TEXT_SCALE (scale size : ℚ)
  | SET_TEXT_COLOUR (r g b a : Int)
  | SET_TEXT_OUTLINE
  | SET_TEXT_WRAP (start stop : ℚ)
  | SET_TEXT_RIGHT_JUSTIFY (toggle : Bool)
  | END_TEXT_COMMAND_DISPLAY_TEXT (x y : ℚ)
deriving DecidableEq

/-- The two rectangles of the new-effect bar (lines 20-21). -/
def Draw.progressBar (m_percentage : ℚ) : List NativeCall :=
  [ NativeCall.DRAW_RECT (f32Round (1 / 2)) 0 1 (f32Round (1 / 20)) 0 0 0 127,
    NativeCall.DRAW_RECT (f32Round (m_percentage * f32Round (1 / 2))) 0 m_percentage
      (f32Round (1 / 20)) 40 40 255 255 ]

/-- The text commands of one effect label (lines 27-34): the name, right
justified, displayed at `(.86f, y)`. -/
def Draw.label (name : String) (y : ℚ) : List NativeCall :=
  [ NativeCall.BEGIN_TEXT_COMMAND_DISPLAY_TEXT "STRING",
    NativeCall.ADD_TEXT_COMPONENT_SUBSTRING_PLAYER_NAME name,
    NativeCall.SET_TEXT_SCALE (f32Round (1 / 2)) (f32Round (1 / 2)),
    NativeCall.SET_TEXT_COLOUR 255 255 255 255,
    NativeCall.SET_TEXT_OUTLINE,
    NativeCall.SET_TEXT_WRAP 0 (f32Round (43 / 50)),
    NativeCall.SET_TEXT_RIGHT_JUSTIFY true,
    NativeCall.END_TEXT_COMMAND_DISPLAY_TEXT (f32Round (43 / 50)) y ]

/-- The two rectangles of the time bar of one effect (lines 38-39);
`effect.Timer / 180` in the `x` coordinate is an integer division. -/
def Draw.subBar (timer : Int) (y : ℚ) : List NativeCall :=
  [ NativeCall.DRAW_RECT (f32Round (9 / 10)) (f32Round (y + f32Round (1 / 50)))
      (f32Round (1 / 20)) (f32Round (1 / 50)) 0 0 0 127,
    NativeCall.DRAW_RECT
      (f32Round (f32Round (9 / 10) - f32Round ((Int.tdiv timer 180 : Int) : ℚ)))
      (f32Round (y + f32Round (1 / 50)))
      (f32Round (f32Round (f32Round (1 / 20) * f32Round (timer : ℚ)) / 180))
      (f32Round (1 / 50)) 180 180 180 255 ]

/-- The body of the loop of `Draw` for one entry (lines 27-40). -/
def Draw.entry (effect : ActiveEffect) (y : ℚ) : List NativeCall :=
  Draw.label effect.Name y ++ (if effect.Timer > 0 then Draw.subBar effect.Timer y else [])

/-- The update `y += .075f` at the end of the loop body. -/
def Draw.nextY (y : ℚ) : ℚ := f32Round (y + f32Round (3 / 40))

/-- The range-for loop of `Draw` (lines 25-43), started with the current `y`. -/
def Draw.loop : ℚ → List ActiveEffect → List NativeCall
  | _, [] => []
  | y, effect :: rest => Draw.entry effect y ++ Draw.loop (Draw.nextY y) rest

/-- `EffectDispatcher::Draw`: the state after the call and the native calls made. -/
def Draw (d : EffectDispatcher) : EffectDispatcher × List NativeCall :=
  (d, Draw.progressBar d.m_percentage ++ Draw.loop (f32Round (1 / 5)) d.m_activeEffects)

/-- The value of `y` when the loop of `Draw` reaches the entry at position `i`:
`.2f` followed by `i` additions of `.075f`. -/
def Draw.y (i : Nat) : ℚ := Draw.nextY^[i] (f32Round (1 / 5))

/-- Smallest value of the 32-bit `int` that holds `ActiveEffect::Timer`. -/
def INT_MIN : Int := -2147483648

/-- Largest value of the 32-bit `int` that holds `ActiveEffect::Timer`. -/
def INT_MAX : Int := 2147483647

/-- `Timer--` on the 32-bit `int` (line 75): one less, except that at the
minimum of the type the decrement overflows and the compiled code wraps to the
maximum. On the values of the type this is `(t - 1 + 2 ^ 31) % 2 ^ 32 - 2 ^ 31`. -/
def decInt (t : Int) : Int := if t = INT_MIN then INT_MAX else t - 1

/-- The coordinates at which the labels of a `Draw` output are displayed: the
`y` arguments of its `END_TEXT_COMMAND_DISPLAY_TEXT` calls, in order. -/
def labelYs : List NativeCall → List ℚ
  | [] => []
  | NativeCall.END_TEXT_COMMAND_DISPLAY_TEXT _ y :: rest => y :: labelYs rest
  | _ :: rest => labelYs rest

/-! ## The sweep loop against its reference -/

theorem sweepRef_nil : sweepRef [] = [] := rfl

theorem sweepStops_nil : sweepStops [] = [] := rfl

theorem sweepRef_cons (e : ActiveEffect) (l : List ActiveEffect) :
    sweepRef (e :: l) =
      if e.Timer - 1 = 0 then sweepRef l
      else if e.Timer - 1 ≤ -180 then sweepRef l
      else decTimer e :: sweepRef l := by
  unfold sweepRef
  simp only [List.map_cons, List.filter_cons, decTimer]
  by_cases h0 : e.Timer - 1 = 0
  · simp [h0]
  · by_cases h1 : e.Timer - 1 ≤ -180
    · simp [h0, h1]
    · simp [h0, h1]

theorem sweepStops_cons (e : ActiveEffect) (l : List ActiveEffect) :
    sweepStops (e :: l) =
      if e.Timer - 1 = 0 then EffectsCall.StopEffect e.EffectType :: sweepStops l
      else sweepStops l := by
  unfold sweepStops
  have h : e.Timer - 1 = 0 ↔ e.Timer = 1 := by omega
  by_cases h1 : e.Timer = 1
  · simp [List.filter_cons, h1]
  · simp [List.filter_cons, h1, h]

theorem sweepRef_append (l₁ l₂ : List ActiveEffect) :
    sweepRef (l₁ ++ l₂) = sweepRef l₁ ++ sweepRef l₂ := by
  simp [sweepRef]

theorem sweepStops_append (l₁ l₂ : List ActiveEffect) :
    sweepStops (l₁ ++ l₂) = sweepStops l₁ ++ sweepStops l₂ := by
  simp [sweepStops]

/-- Loop invariant of the erase-and-advance loop: with the iterator standing
after the already visited and retained entries `done`, enough fuel for the
entries still to visit gives the reference result. -/
theorem UpdateEffects.loop_eq (todo : List ActiveEffect) :
    ∀ (fuel : Nat) (done : List ActiveEffect) (calls : List EffectsCall),
      todo.length + 1 ≤ fuel →
      UpdateEffects.loop fuel (done ++ todo) done.length calls =
        some (done ++ sweepRef todo, calls ++ sweepStops todo) := by
  induction todo with
  | nil =>
    intro fuel done calls hf
    obtain ⟨f, rfl⟩ : ∃ f, fuel = f + 1 := ⟨fuel - 1, by simp at hf; omega⟩
    simp [UpdateEffects.loop, sweepRef_nil, sweepStops_nil]
  | cons e rest ih =>
    intro fuel done calls hf
    obtain ⟨f, rfl⟩ : ∃ f, fuel = f + 1 := ⟨fuel - 1, by simp at hf; omega⟩
    have hf1 : rest.length + 1 ≤ f := by simp at hf; omega
    have hne : ¬ done.length = (done ++ e :: rest).length := by simp
    have hget : (done ++ e :: rest)[done.length]? = some e := by
      rw [List.getElem?_append_right (le_refl _)]; simp
    have hset : (done ++ e :: rest).set done.length { e with Timer := e.Timer - 1 } =
        done ++ { e with Timer := e.Timer - 1 } :: rest := by simp
    have herase : (done ++ { e with Timer := e.Timer - 1 } :: rest).eraseIdx done.length =
        done ++ rest := by
      rw [List.eraseIdx_append_of_length_le (le_refl _)]; simp
    rw [UpdateEffects.loop, if_neg hne, hget]
    simp only [hset, herase]
    rw [sweepRef_cons, sweepStops_cons]
    by_cases h0 : e.Timer - 1 = 0
    · rw [if_pos h0, if_pos h0, if_pos h0, ih f done _ hf1]
      simp
    · rw [if_neg h0, if_neg h0, if_neg h0]
      by_cases h1 : e.Timer - 1 ≤ -180
      · rw [if_pos h1, if_pos h1, ih f done _ hf1]
      · rw [if_neg h1, if_neg h1]
        have := ih f (done ++ [{ e with Timer := e.Timer - 1 }]) calls hf1
        simp only [List.length_append, List.length_singleton, List.append_assoc,
          List.singleton_append] at this
        rw [this]; rfl

/-- One sweep always returns, and its result is the reference one. -/
theorem UpdateEffects.sweep_eq (d : EffectDispatcher) :
    UpdateEffects.sweep d =
      some { d with m_activeEffects := sweepRef d.m_activeEffects
                    m_effects := d.m_effects ++ sweepStops d.m_activeEffects } := by
  have h := UpdateEffects.loop_eq d.m_activeEffects (d.m_activeEffects.length + 1) [] d.m_effects
    (le_refl _)
  simp only [List.nil_append, List.length_nil] at h
  simp [UpdateEffects.sweep, h]

/-! ## Consecutive sweeps -/

theorem iterate_sweepRef_nil (n : Nat) : sweepRef^[n] [] = [] := by
  induction n with
  | zero => rfl
  | succ n ih => rw [Function.iterate_succ_apply, sweepRef_nil, ih]

theorem iterate_sweepRef_append (n : Nat) :
    ∀ l₁ l₂ : List ActiveEffect, sweepRef^[n] (l₁ ++ l₂) = sweepRef^[n] l₁ ++ sweepRef^[n] l₂ := by
  induction n with
  | zero => intro l₁ l₂; rfl
  | succ n ih =>
    intro l₁ l₂
    rw [Function.iterate_succ_apply, Function.iterate_succ_apply, Function.iterate_succ_apply,
      sweepRef_append, ih]

/-- An entry whose timer meets neither `0` nor `-180` during `k` sweeps is kept,
with its timer decremented `k` times. -/
theorem iterate_sweepRef_single (e : ActiveEffect) (k : Nat)
    (h : ∀ j : Nat, 1 ≤ j → j ≤ k → e.Timer - j ≠ 0 ∧ -180 < e.Timer - j) :
    sweepRef^[k] [e] = [{ e with Timer := e.Timer - k }] := by
  induction k with
  | zero => simp
  | succ k ih =>
    have hk := ih (fun j h1 h2 => h j h1 (Nat.le_succ_of_le h2))
    obtain ⟨h0, h1⟩ := h (k + 1) (Nat.succ_le_succ (Nat.zero_le k)) (le_refl _)
    rw [Function.iterate_succ_apply', hk, sweepRef_cons, sweepRef_nil]
    push_cast at h0 h1
    have e0 : ¬ (e.Timer - (k : Int) - 1 = 0) := by omega
    have e1 : ¬ (e.Timer - (k : Int) - 1 ≤ -180) := by omega
    simp only [e0, e1, if_false, decTimer]
    push_cast
    rw [sub_sub]

/-- An entry with timer `-1` is gone after 179 sweeps. -/
theorem iterate_sweepRef_purge (e : ActiveEffect) (he : e.Timer = -1) (m : Nat) (hm : m = 179) :
    sweepRef^[m] [e] = [] := by
  obtain ⟨k, hk, rfl⟩ : ∃ k, k = 178 ∧ m = k + 1 := ⟨m - 1, by omega, by omega⟩
  rw [Function.iterate_succ_apply',
    iterate_sweepRef_single e k (fun j _ hj => by rw [he]; omega), sweepRef_cons, sweepRef_nil]
  have h1 : e.Timer - (k : Int) - 1 ≤ -180 := by rw [he]; omega
  simp [h1]

theorem sweepStopsN_succ (n : Nat) :
    ∀ l : List ActiveEffect, sweepStopsN (n + 1) l = sweepStopsN n l ++ sweepStops (sweepRef^[n] l) := by
  induction n with
  | zero => intro l; simp [sweepStopsN]
  | succ n ih =>
    intro l
    rw [sweepStopsN, ih (sweepRef l), sweepStopsN, Function.iterate_succ_apply, List.append_assoc]

/-- Consecutive sweeps always return, with the iterated reference result. -/
theorem sweeps_eq (n : Nat) :
    ∀ d : EffectDispatcher, sweeps n d =
      some { d with m_activeEffects := sweepRef^[n] d.m_activeEffects
                    m_effects := d.m_effects ++ sweepStopsN n d.m_activeEffects } := by
  induction n with
  | zero => intro d; simp [sweeps, sweepStopsN]
  | succ n ih =>
    intro d
    rw [sweeps, UpdateEffects.sweep_eq]
    simp only [ih, Function.iterate_succ_apply, sweepStopsN, List.append_assoc]

/-- The last of `n + 1` sweeps is a sweep of the state after `n` sweeps. -/
theorem sweeps_succ (n : Nat) (d dn : EffectDispatcher) (h : sweeps n d = some dn) :
    sweeps (n + 1) d = UpdateEffects.sweep dn := by
  rw [sweeps_eq] at h
  cases h
  rw [sweeps_eq, UpdateEffects.sweep_eq]
  simp only [Function.iterate_succ_apply', sweepStopsN_succ, List.append_assoc]

theorem sweepRef_single_one (e : ActiveEffect) (h : e.Timer = 1) : sweepRef [e] = [] := by
  rw [sweepRef_cons, sweepRef_nil]; simp [h]

theorem sweepStops_single (e : ActiveEffect) :
    sweepStops [e] = if e.Timer = 1 then [EffectsCall.StopEffect e.EffectType] else [] := by
  unfold sweepStops
  by_cases h : e.Timer = 1 <;> simp [List.filter_cons, h]

/-! ## The refresh loop of `DispatchRandomEffect` -/

theorem DispatchRandomEffect.loop_of_not_mem (x : EffectType) (l : List ActiveEffect)
    (h : ∀ a ∈ l, a.EffectType ≠ x) : DispatchRandomEffect.loop x l = (false, l) := by
  induction l with
  | nil => rfl
  | cons a rest ih =>
    have ha : ¬ a.EffectType = x := h a (List.mem_cons_self _ _)
    have hrest := ih (fun b hb => h b (List.mem_cons_of_mem _ hb))
    simp [DispatchRandomEffect.loop, ha, hrest]

theorem DispatchRandomEffect.loop_of_split (x : EffectType) (pre post : List ActiveEffect)
    (e : ActiveEffect) (hpre : ∀ a ∈ pre, a.EffectType ≠ x) (he : e.EffectType = x) :
    DispatchRandomEffect.loop x (pre ++ e :: post) =
      (true, pre ++ { e with Timer := 180 } :: post) := by
  induction pre with
  | nil => simp [DispatchRandomEffect.loop, he]
  | cons a rest ih =>
    have ha : ¬ a.EffectType = x := hpre a (List.mem_cons_self _ _)
    have hrest := ih (fun b hb => hpre b (List.mem_cons_of_mem _ hb))
    simp [DispatchRandomEffect.loop, ha, hrest]

/-- A list with an entry for `x` splits at the first such entry. -/
theorem exists_first_split (x : EffectType) (l : List ActiveEffect)
    (h : ∃ a ∈ l, a.EffectType = x) :
    ∃ pre e post, l = pre ++ e :: post ∧ (∀ a ∈ pre, a.EffectType ≠ x) ∧ e.EffectType = x := by
  induction l with
  | nil => simp at h
  | cons a rest ih =>
    by_cases ha : a.EffectType = x
    · exact ⟨[], a, rest, rfl, by simp, ha⟩
    · have h1 : ∃ b ∈ rest, b.EffectType = x := by
        obtain ⟨b, hb, hbx⟩ := h
        rcases List.mem_cons.mp hb with hba | hbr
        · exact absurd (hba ▸ hbx) ha
        · exact ⟨b, hbr, hbx⟩
      obtain ⟨pre, e, post, hl, hpre, he⟩ := ih h1
      refine ⟨a :: pre, e, post, by simp [hl], ?_, he⟩
      intro b hb
      rcases List.mem_cons.mp hb with hba | hbr
      · exact hba ▸ ha
      · exact hpre b hbr

theorem DispatchRandomEffect.loop_getElem? (x : EffectType) (l : List ActiveEffect) :
    ∀ i : Nat, i ≠ l.findIdx (fun a => decide (a.EffectType = x)) →
      (DispatchRandomEffect.loop x l).2[i]? = l[i]? := by
  induction l with
  | nil => intro i _; rfl
  | cons a rest ih =>
    intro i hi
    by_cases ha : a.EffectType = x
    · have h0 : i ≠ 0 := by simpa [List.findIdx_cons, ha] using hi
      obtain ⟨j, rfl⟩ : ∃ j, i = j + 1 := ⟨i - 1, by omega⟩
      simp [DispatchRandomEffect.loop, ha]
    · cases i with
      | zero => simp [DispatchRandomEffect.loop, ha]
      | succ j =>
        have hj : j ≠ rest.findIdx (fun a => decide (a.EffectType = x)) := by
          intro hj
          apply hi
          simp [List.findIdx_cons, ha, hj]
        simpa [DispatchRandomEffect.loop, ha] using ih j hj

theorem DispatchRandomEffect.loop_map (x : EffectType) (l : List ActiveEffect) :
    (DispatchRandomEffect.loop x l).2.map (fun a => (a.EffectType, a.Name)) =
      l.map (fun a => (a.EffectType, a.Name)) := by
  induction l with
  | nil => rfl
  | cons a rest ih =>
    by_cases ha : a.EffectType = x
    · simp [DispatchRandomEffect.loop, ha]
    · simpa [DispatchRandomEffect.loop, ha] using ih

theorem DispatchRandomEffect.loop_fst (x : EffectType) (l : List ActiveEffect)
    (h : ∃ a ∈ l, a.EffectType = x) : (DispatchRandomEffect.loop x l).1 = true := by
  obtain ⟨pre, e, post, hl, hpre, he⟩ := exists_first_split x l h
  rw [hl, DispatchRandomEffect.loop_of_split x pre post e hpre he]

/-- Fresh activation: the drawn identifier is not timed, or has no entry. -/
theorem DispatchRandomEffect_fresh (Effect : EffectType → Option EffectInfo) (rnd : Int)
    (d : EffectDispatcher) (info : EffectInfo) (hinfo : Effect rnd = some info)
    (h : info.IsTimed = false ∨ ∀ a ∈ d.m_activeEffects, a.EffectType ≠ rnd) :
    DispatchRandomEffect Effect rnd d =
      some { d with
        m_effects := d.m_effects ++ [EffectsCall.StartEffect rnd]
        m_activeEffects := d.m_activeEffects ++
          [{ EffectType := rnd, Name := info.Name,
             Timer := if info.IsTimed then info.Duration else -1 }]
        m_percentage := 0 } := by
  unfold DispatchRandomEffect
  simp only [hinfo]
  cases ht : info.IsTimed with
  | false => simp
  | true =>
    rcases h with h | h
    · simp [ht] at h
    · simp [DispatchRandomEffect.loop_of_not_mem rnd _ h]

/-- Refresh: the drawn identifier is timed and `e` is its first entry. -/
theorem DispatchRandomEffect_refresh (Effect : EffectType → Option EffectInfo) (rnd : Int)
    (d : EffectDispatcher) (info : EffectInfo) (pre post : List ActiveEffect) (e : ActiveEffect)
    (hinfo : Effect rnd = some info) (ht : info.IsTimed = true)
    (hl : d.m_activeEffects = pre ++ e :: post)
    (hpre : ∀ a ∈ pre, a.EffectType ≠ rnd) (he : e.EffectType = rnd) :
    DispatchRandomEffect Effect rnd d =
      some { d with
        m_activeEffects := pre ++ { e with Timer := 180 } :: post
        m_percentage := 0 } := by
  unfold DispatchRandomEffect
  simp only [hinfo, ht, hl]
  simp [DispatchRandomEffect.loop_of_split rnd pre post e hpre he]

/-! ## Preservation of `NoDupTimed` -/

theorem NoDupTimed_nil (Effect : EffectType → Option EffectInfo) : NoDupTimed Effect [] :=
  List.Pairwise.nil

theorem NoDupTimed_sweepRef (Effect : EffectType → Option EffectInfo) (l : List ActiveEffect)
    (h : NoDupTimed Effect l) : NoDupTimed Effect (sweepRef l) := by
  unfold sweepRef
  apply List.Pairwise.filter
  rw [List.pairwise_map]
  exact h

theorem NoDupTimed_DispatchRandomEffect (Effect : EffectType → Option EffectInfo) (rnd : Int)
    (d d1 : EffectDispatcher) (h : NoDupTimed Effect d.m_activeEffects)
    (hd : DispatchRandomEffect Effect rnd d = some d1) :
    NoDupTimed Effect d1.m_activeEffects := by
  cases hinfo : Effect rnd with
  | none => simp [DispatchRandomEffect, hinfo] at hd
  | some info =>
    by_cases hfresh : info.IsTimed = false ∨ ∀ a ∈ d.m_activeEffects, a.EffectType ≠ rnd
    · rw [DispatchRandomEffect_fresh Effect rnd d info hinfo hfresh] at hd
      cases hd
      show NoDupTimed Effect (d.m_activeEffects ++ _)
      rw [NoDupTimed, List.pairwise_append]
      refine ⟨h, List.pairwise_singleton _ _, ?_⟩
      intro a ha b hb hab info1 hinfo1
      rw [List.mem_singleton] at hb
      subst hb
      simp only at hab
      rw [hab, hinfo] at hinfo1
      cases hinfo1
      rcases hfresh with hf | hf
      · exact hf
      · exact absurd hab (hf a ha)
    · rw [not_or] at hfresh
      obtain ⟨ht, hex⟩ := hfresh
      have ht1 : info.IsTimed = true := by simpa using ht
      push_neg at hex
      obtain ⟨pre, e, post, hl, hpre, he⟩ := exists_first_split rnd d.m_activeEffects hex
      rw [DispatchRandomEffect_refresh Effect rnd d info pre post e hinfo ht1 hl hpre he] at hd
      cases hd
      show NoDupTimed Effect (pre ++ _ :: post)
      rw [hl] at h
      have hmap : (pre ++ { e with Timer := 180 } :: post).map (fun a => a.EffectType) =
          (pre ++ e :: post).map (fun a => a.EffectType) := by simp
      have key : ∀ l : List ActiveEffect, NoDupTimed Effect l ↔
          (l.map (fun a => a.EffectType)).Pairwise (fun x y => x = y →
            ∀ info, Effect x = some info → info.IsTimed = false) := by
        intro l; rw [NoDupTimed, List.pairwise_map]
      rw [key, hmap, ← key]
      exact h

theorem NoDupTimed_sweep (Effect : EffectType → Option EffectInfo)
    (d d1 : EffectDispatcher) (h : NoDupTimed Effect d.m_activeEffects)
    (hd : UpdateEffects.sweep d = some d1) : NoDupTimed Effect d1.m_activeEffects := by
  rw [UpdateEffects.sweep_eq] at hd
  cases hd
  exact NoDupTimed_sweepRef Effect _ h

theorem NoDupTimed_apply (Effect : EffectType → Option EffectInfo) (op : Op)
    (d d1 : EffectDispatcher) (h : NoDupTimed Effect d.m_activeEffects)
    (hd : Op.apply Effect d op = some d1) : NoDupTimed Effect d1.m_activeEffects := by
  cases op with
  | dispatch rnd => exact NoDupTimed_DispatchRandomEffect Effect rnd d d1 h hd
  | sweep => exact NoDupTimed_sweep Effect d d1 h hd
  | updateEffects tickInit tickNow =>
    simp only [Op.apply, UpdateEffects] at hd
    split at hd
    · exact NoDupTimed_sweep Effect _ d1 (by exact h) hd
    · cases hd; exact h
  | updateTimer tickInit tickNow rnd =>
    simp only [Op.apply, UpdateTimer] at hd
    split at hd
    · exact NoDupTimed_DispatchRandomEffect Effect rnd _ d1 (by exact h) hd
    · cases hd; exact h
  | clear =>
    simp only [Op.apply, ClearEffects] at hd
    cases hd
    exact NoDupTimed_nil Effect

theorem NoDupTimed_run (Effect : EffectType → Option EffectInfo) (ops : List Op) :
    ∀ (d d1 : EffectDispatcher), NoDupTimed Effect d.m_activeEffects →
      run Effect ops d = some d1 → NoDupTimed Effect d1.m_activeEffects := by
  induction ops with
  | nil =>
    intro d d1 h hd
    simp only [run] at hd
    cases hd
    exact h
  | cons op ops ih =>
    intro d d1 h hd
    simp only [run] at hd
    cases hop : Op.apply Effect d op with
    | none => simp [hop] at hd
    | some d2 =>
      simp only [hop] at hd
      exact ih d2 d1 (NoDupTimed_apply Effect op d d2 h hop) hd

/-! ## The `float` comparison of `UpdateTimer` -/

theorem roundHalfEven_ge (x : ℚ) : ⌊x⌋ ≤ roundHalfEven x := by
  unfold roundHalfEven; split_ifs <;> omega

theorem roundHalfEven_le (x : ℚ) : roundHalfEven x ≤ ⌊x⌋ + 1 := by
  unfold roundHalfEven; split_ifs <;> omega

theorem roundHalfEven_intCast (k : ℤ) : roundHalfEven (k : ℚ) = k := by
  unfold roundHalfEven; simp

theorem roundHalfEven_mono {x y : ℚ} (h : x ≤ y) : roundHalfEven x ≤ roundHalfEven y := by
  have hf : ⌊x⌋ ≤ ⌊y⌋ := Int.floor_mono h
  rcases hf.lt_or_eq with hlt | heq
  · calc roundHalfEven x ≤ ⌊x⌋ + 1 := roundHalfEven_le x
      _ ≤ ⌊y⌋ := hlt
      _ ≤ roundHalfEven y := roundHalfEven_ge y
  · unfold roundHalfEven
    rw [← heq]
    have hxy : x - ⌊x⌋ ≤ y - ⌊x⌋ := by linarith
    split_ifs <;> first | omega | (exfalso; linarith)

/-- The spacing of the format around a positive `q`, against the power of two below `q`. -/
theorem f32_ulp (q : ℚ) : (2 : ℚ) ^ Int.log 2 q = 8388608 * 2 ^ (Int.log 2 q - 23) := by
  rw [zpow_sub₀ (by norm_num : (2 : ℚ) ≠ 0)]
  norm_num
  field_simp

theorem f32_ulp_pos (q : ℚ) : (0 : ℚ) < 2 ^ (Int.log 2 q - 23) := by positivity

theorem f32_pow_le {q : ℚ} (hq : 0 < q) : (2 : ℚ) ^ Int.log 2 q ≤ q := by
  have := Int.zpow_log_le_self (by norm_num : 1 < 2) hq
  simpa using this

theorem f32_lt_pow (q : ℚ) : q < 2 * (2 : ℚ) ^ Int.log 2 q := by
  have := Int.lt_zpow_succ_log_self (by norm_num : 1 < 2) q
  rw [zpow_add_one₀ (by norm_num)] at this
  simp only [Nat.cast_ofNat] at this
  linarith

theorem f32RoundPos_ge {q : ℚ} (hq : 0 < q) : (2 : ℚ) ^ Int.log 2 q ≤ f32RoundPos q := by
  have hu := f32_ulp_pos q
  have h1 : (8388608 : ℚ) ≤ q / 2 ^ (Int.log 2 q - 23) := by
    rw [le_div_iff₀ hu, ← f32_ulp]; exact f32_pow_le hq
  have h2 : (8388608 : ℤ) ≤ ⌊q / 2 ^ (Int.log 2 q - 23)⌋ := Int.le_floor.2 (by exact_mod_cast h1)
  have h3 : (8388608 : ℤ) ≤ roundHalfEven (q / 2 ^ (Int.log 2 q - 23)) :=
    le_trans h2 (roundHalfEven_ge _)
  have h4 : (8388608 : ℚ) ≤ (roundHalfEven (q / 2 ^ (Int.log 2 q - 23)) : ℚ) := by exact_mod_cast h3
  rw [f32_ulp, f32RoundPos]
  exact mul_le_mul_of_nonneg_right h4 hu.le

theorem f32RoundPos_le (q : ℚ) : f32RoundPos q ≤ 2 * (2 : ℚ) ^ Int.log 2 q := by
  have hu := f32_ulp_pos q
  have h1 : q / 2 ^ (Int.log 2 q - 23) < (16777216 : ℚ) := by
    rw [div_lt_iff₀ hu]
    have := f32_lt_pow q
    rw [f32_ulp] at this
    linarith
  have h2 : ⌊q / 2 ^ (Int.log 2 q - 23)⌋ < (16777216 : ℤ) := Int.floor_lt.2 (by exact_mod_cast h1)
  have h3 : roundHalfEven (q / 2 ^ (Int.log 2 q - 23)) ≤ (16777216 : ℤ) := by
    have := roundHalfEven_le (q / 2 ^ (Int.log 2 q - 23)); omega
  have h4 : (roundHalfEven (q / 2 ^ (Int.log 2 q - 23)) : ℚ) ≤ (16777216 : ℚ) := by exact_mod_cast h3
  rw [f32_ulp, f32RoundPos]
  have := mul_le_mul_of_nonneg_right h4 hu.le
  linarith

theorem f32RoundPos_mono {a b : ℚ} (ha : 0 < a) (hab : a ≤ b) : f32RoundPos a ≤ f32RoundPos b := by
  have hb : 0 < b := lt_of_lt_of_le ha hab
  have he : Int.log 2 a ≤ Int.log 2 b := Int.log_mono_right ha hab
  rcases he.lt_or_eq with hlt | heq
  · calc f32RoundPos a ≤ 2 * (2 : ℚ) ^ Int.log 2 a := f32RoundPos_le a
      _ = (2 : ℚ) ^ (Int.log 2 a + 1) := by rw [zpow_add_one₀ (by norm_num)]; ring
      _ ≤ (2 : ℚ) ^ Int.log 2 b := zpow_le_zpow_right₀ (by norm_num) hlt
      _ ≤ f32RoundPos b := f32RoundPos_ge hb
  · unfold f32RoundPos
    rw [heq]
    have hu := f32_ulp_pos b
    apply mul_le_mul_of_nonneg_right _ hu.le
    have := roundHalfEven_mono (div_le_div_of_nonneg_right hab hu.le)
    exact_mod_cast this

theorem f32Round_nonneg {q : ℚ} (hq : 0 ≤ q) : 0 ≤ f32Round q := by
  unfold f32Round
  split_ifs with h0 h1
  · exact le_refl _
  · exact le_trans (by positivity) (f32RoundPos_ge h1)
  · exact absurd (lt_of_le_of_ne hq (Ne.symm h0)) h1

/-- Rounding to `float` is monotone on the nonnegative rationals. -/
theorem f32Round_mono {a b : ℚ} (ha : 0 ≤ a) (hab : a ≤ b) : f32Round a ≤ f32Round b := by
  rcases ha.lt_or_eq with hpos | hzero
  · have hb : 0 < b := lt_of_lt_of_le hpos hab
    simp only [f32Round, hpos.ne', hb.ne', hpos, hb, if_true, if_false]
    exact f32RoundPos_mono hpos hab
  · rw [← hzero]
    simpa [f32Round] using f32Round_nonneg (le_trans ha hab)

theorem log2_eq {q : ℚ} {e : ℤ} (h1 : (2 : ℚ) ^ e ≤ q) (h2 : q < (2 : ℚ) ^ (e + 1)) :
    Int.log 2 q = e := by
  have hq : 0 < q := lt_of_lt_of_le (by positivity) h1
  have hb : 1 < 2 := by norm_num
  have a1 : e ≤ Int.log 2 q := (Int.zpow_le_iff_le_log hb hq).1 (by simpa using h1)
  have a2 : Int.log 2 q < e + 1 := (Int.lt_zpow_iff_log_lt hb hq).1 (by simpa using h2)
  omega

/-- A positive rational that is an integer multiple of the spacing around it is a `float`. -/
theorem f32Round_exact {q : ℚ} (e k : ℤ) (h1 : (2 : ℚ) ^ e ≤ q) (h2 : q < (2 : ℚ) ^ (e + 1))
    (hk : q = k * 2 ^ (e - 23)) : f32Round q = q := by
  have hq : 0 < q := lt_of_lt_of_le (by positivity) h1
  have hu : (0 : ℚ) < 2 ^ (e - 23) := by positivity
  simp only [f32Round, hq.ne', hq, if_true, if_false, f32RoundPos, log2_eq h1 h2]
  have : q / 2 ^ (e - 23) = (k : ℚ) := by rw [div_eq_iff hu.ne']; exact hk
  rw [this, roundHalfEven_intCast, ← hk]

theorem f32Round_one : f32Round 1 = 1 :=
  f32Round_exact 0 8388608 (by norm_num) (by norm_num) (by norm_num)

theorem f32Round_60000 : f32Round 60000 = 60000 :=
  f32Round_exact 15 15360000 (by norm_num) (by norm_num) (by norm_num)

theorem f32Round_60001 : f32Round 60001 = 60001 :=
  f32Round_exact 15 15360256 (by norm_num) (by norm_num) (by norm_num)

theorem f32Round_succ_one : f32Round (8388609 / 8388608) = 8388609 / 8388608 :=
  f32Round_exact 0 8388609 (by norm_num) (by norm_num) (by norm_num)

/-- The comparison of `UpdateTimer`: the rounded quotient exceeds `1.f` exactly
when the tick difference exceeds `60000`. -/
theorem f32_gate (n : ℕ) : 1 < UpdateTimer.percentage n ↔ 60000 < n := by
  unfold UpdateTimer.percentage
  constructor
  · intro h
    by_contra hn
    have hn1 : (n : ℚ) ≤ 60000 := by exact_mod_cast Nat.le_of_not_lt hn
    have h1 : f32Round (n : ℚ) ≤ 60000 := by
      rw [← f32Round_60000]; exact f32Round_mono (Nat.cast_nonneg n) hn1
    have h0 : 0 ≤ f32Round (n : ℚ) := f32Round_nonneg (Nat.cast_nonneg n)
    have h2 : f32Round (n : ℚ) / 60000 ≤ 1 := by
      rw [div_le_iff₀ (by norm_num)]; linarith
    have h3 := f32Round_mono (div_nonneg h0 (by norm_num)) h2
    rw [f32Round_one] at h3
    exact absurd h (not_lt.2 h3)
  · intro hn
    have hn1 : (60001 : ℚ) ≤ (n : ℚ) := by exact_mod_cast hn
    have h1 : 60001 ≤ f32Round (n : ℚ) := by
      rw [← f32Round_60001]; exact f32Round_mono (by norm_num) hn1
    have h2 : (8388609 / 8388608 : ℚ) ≤ f32Round (n : ℚ) / 60000 := by
      rw [le_div_iff₀ (by norm_num)]
      have : (8388609 / 8388608 : ℚ) * 60000 ≤ 60001 := by norm_num
      linarith
    have h3 := f32Round_mono (by norm_num) h2
    rw [f32Round_succ_one] at h3
    have : (1 : ℚ) < 8388609 / 8388608 := by norm_num
    linarith

theorem subDWORD64_of_le {a b : Nat} (ha : a < 2 ^ 64) (hb : b ≤ a) : subDWORD64 a b = a - b := by
  unfold subDWORD64
  omega

theorem DispatchRandomEffect_pastUpdateTime (Effect : EffectType → Option EffectInfo) (rnd : Int)
    (d d1 : EffectDispatcher) (h : DispatchRandomEffect Effect rnd d = some d1) :
    d1.UpdateTimer_pastUpdateTime = d.UpdateTimer_pastUpdateTime := by
  unfold DispatchRandomEffect at h
  cases hinfo : Effect rnd with
  | none => simp [hinfo] at h
  | some info =>
    cases ht : info.IsTimed <;> cases hl : (DispatchRandomEffect.loop rnd d.m_activeEffects).1 <;>
      simp [hinfo, ht, hl] at h <;> (subst h; rfl)

/-! ## `UpdateTimer` and `UpdateEffects` by cases on their gate -/

theorem subDWORD64_of_lt {a b : Nat} (hb : b < 2 ^ 64) (hab : a < b) :
    subDWORD64 a b = 2 ^ 64 - (b - a) := by
  unfold subDWORD64
  omega

theorem UpdateTimer_fire (Effect : EffectType → Option EffectInfo) (tickInit tickNow : Nat)
    (rnd : Int) (d : EffectDispatcher)
    (h : 60000 < subDWORD64 tickNow (d.UpdateTimer_pastUpdateTime.getD tickInit)) :
    UpdateTimer Effect tickInit tickNow rnd d =
      DispatchRandomEffect Effect rnd
        { d with
          m_percentage := UpdateTimer.percentage
            (subDWORD64 tickNow (d.UpdateTimer_pastUpdateTime.getD tickInit))
          UpdateTimer_pastUpdateTime := some tickNow } := by
  have hgate := (f32_gate _).2 h
  simp only [UpdateTimer, gt_iff_lt, hgate, if_true]

theorem UpdateTimer_hold (Effect : EffectType → Option EffectInfo) (tickInit tickNow : Nat)
    (rnd : Int) (d : EffectDispatcher)
    (h : ¬ 60000 < subDWORD64 tickNow (d.UpdateTimer_pastUpdateTime.getD tickInit)) :
    UpdateTimer Effect tickInit tickNow rnd d =
      some { d with
        m_percentage := UpdateTimer.percentage
          (subDWORD64 tickNow (d.UpdateTimer_pastUpdateTime.getD tickInit))
        UpdateTimer_pastUpdateTime := some (d.UpdateTimer_pastUpdateTime.getD tickInit) } := by
  have hgate : ¬ 1 < UpdateTimer.percentage
      (subDWORD64 tickNow (d.UpdateTimer_pastUpdateTime.getD tickInit)) :=
    fun hg => h ((f32_gate _).1 hg)
  simp only [UpdateTimer, gt_iff_lt, hgate, if_false]

theorem UpdateTimer.percentage_nonneg (n : Nat) : 0 ≤ UpdateTimer.percentage n :=
  f32Round_nonneg (div_nonneg (f32Round_nonneg (Nat.cast_nonneg n)) (by norm_num))

/-- `DispatchRandomEffect` returns whenever the catalog has the drawn identifier,
and it always leaves `m_percentage` at `0`. -/
theorem DispatchRandomEffect_percentage (Effect : EffectType → Option EffectInfo) (rnd : Int)
    (d : EffectDispatcher) (info : EffectInfo) (hinfo : Effect rnd = some info) :
    ∃ d1, DispatchRandomEffect Effect rnd d = some d1 ∧ d1.m_percentage = 0 := by
  unfold DispatchRandomEffect
  simp only [hinfo]
  split_ifs <;> exact ⟨_, rfl, rfl⟩


theorem run_cons_of_eq (Effect : EffectType → Option EffectInfo) (op : Op) (ops : List Op)
    (d d1 : EffectDispatcher) (h : Op.apply Effect d op = some d1) :
    run Effect (op :: ops) d = run Effect ops d1 := by
  rw [run, h]

/-- `UpdateEffects` with the gate open: the executor's update, then one sweep. -/
theorem UpdateEffects_open (tickInit tickNow : Nat) (d : EffectDispatcher)
    (h : 1000 < subDWORD64 tickNow (d.UpdateEffects_pastUpdateTime.getD tickInit)) :
    UpdateEffects tickInit tickNow d =
      some { d with
        m_effects := d.m_effects ++ [EffectsCall.UpdateEffects] ++ sweepStops d.m_activeEffects
        m_activeEffects := sweepRef d.m_activeEffects
        UpdateEffects_pastUpdateTime := some tickNow } := by
  simp only [UpdateEffects, gt_iff_lt, h, if_true, UpdateEffects.sweep_eq]

/-- `UpdateEffects` with the gate closed: only the executor's update. -/
theorem UpdateEffects_closed (tickInit tickNow : Nat) (d : EffectDispatcher)
    (h : ¬ 1000 < subDWORD64 tickNow (d.UpdateEffects_pastUpdateTime.getD tickInit)) :
    UpdateEffects tickInit tickNow d =
      some { d with
        m_effects := d.m_effects ++ [EffectsCall.UpdateEffects]
        UpdateEffects_pastUpdateTime := some (d.UpdateEffects_pastUpdateTime.getD tickInit) } := by
  simp only [UpdateEffects, gt_iff_lt, h, if_false]

/-! ## Timer ranges and the balance of start and stop calls -/

theorem mem_sweepRef {a : ActiveEffect} {l : List ActiveEffect} (h : a ∈ sweepRef l) :
    ∃ b ∈ l, a = decTimer b ∧ a.Timer ≠ 0 ∧ -180 < a.Timer := by
  unfold sweepRef at h
  rw [List.mem_filter, List.mem_map] at h
  obtain ⟨⟨b, hb, rfl⟩, hc⟩ := h
  simp only [Bool.and_eq_true, Bool.not_eq_true', decide_eq_false_iff_not] at hc
  exact ⟨b, hb, rfl, hc.1, by omega⟩

theorem TimerInRange_sweepRef (Effect : EffectType → Option EffectInfo) (l : List ActiveEffect)
    (h : ∀ a ∈ l, TimerInRange Effect a) : ∀ a ∈ sweepRef l, TimerInRange Effect a := by
  intro a ha
  obtain ⟨b, hb, rfl, h0, h1⟩ := mem_sweepRef ha
  obtain ⟨info, hinfo, ht, hn⟩ := h b hb
  simp only [decTimer] at h0 h1
  refine ⟨info, hinfo, ?_, ?_⟩
  · intro hti
    have := ht hti
    simp only [decTimer]
    omega
  · intro hti
    have := hn hti
    simp only [decTimer]
    omega

theorem TimerInRange_DispatchRandomEffect (Effect : EffectType → Option EffectInfo)
    (hdur : DurationsPositive Effect) (rnd : Int) (d d1 : EffectDispatcher)
    (h : ∀ a ∈ d.m_activeEffects, TimerInRange Effect a)
    (hd : DispatchRandomEffect Effect rnd d = some d1) :
    ∀ a ∈ d1.m_activeEffects, TimerInRange Effect a := by
  cases hinfo : Effect rnd with
  | none => simp [DispatchRandomEffect, hinfo] at hd
  | some info =>
    by_cases hfresh : info.IsTimed = false ∨ ∀ a ∈ d.m_activeEffects, a.EffectType ≠ rnd
    · rw [DispatchRandomEffect_fresh Effect rnd d info hinfo hfresh] at hd
      cases hd
      intro a ha
      rcases List.mem_append.mp ha with ha | ha
      · exact h a ha
      · rw [List.mem_singleton] at ha
        subst ha
        refine ⟨info, hinfo, ?_, ?_⟩
        · intro hti
          have := hdur rnd info hinfo hti
          simp only [hti, if_true]
          exact ⟨this, le_max_left _ _⟩
        · intro hti
          simp [hti]
    · rw [not_or] at hfresh
      obtain ⟨ht, hex⟩ := hfresh
      have ht1 : info.IsTimed = true := by simpa using ht
      push_neg at hex
      obtain ⟨pre, e, post, hl, hpre, he⟩ := exists_first_split rnd d.m_activeEffects hex
      rw [DispatchRandomEffect_refresh Effect rnd d info pre post e hinfo ht1 hl hpre he] at hd
      cases hd
      intro a ha
      have ha' : a ∈ pre ∨ a = { e with Timer := 180 } ∨ a ∈ post := by
        simpa using ha
      rcases ha' with ha | ha | ha
      · exact h a (by rw [hl]; simp [ha])
      · subst ha
        refine ⟨info, by simpa [he] using hinfo, ?_, ?_⟩
        · intro _
          exact ⟨by norm_num, le_max_right _ _⟩
        · intro hti
          rw [ht1] at hti
          exact absurd hti (by decide)
      · exact h a (by rw [hl]; simp [ha])

theorem startCount_append (x : EffectType) (l₁ l₂ : List EffectsCall) :
    startCount x (l₁ ++ l₂) = startCount x l₁ + startCount x l₂ := by
  simp [startCount]

theorem stopCount_append (x : EffectType) (l₁ l₂ : List EffectsCall) :
    stopCount x (l₁ ++ l₂) = stopCount x l₁ + stopCount x l₂ := by
  simp [stopCount]

theorem activeCount_append (x : EffectType) (l₁ l₂ : List ActiveEffect) :
    activeCount x (l₁ ++ l₂) = activeCount x l₁ + activeCount x l₂ := by
  simp [activeCount]

theorem startCount_sweepStops (x : EffectType) (l : List ActiveEffect) :
    startCount x (sweepStops l) = 0 := by
  simp [startCount, sweepStops, List.count_eq_zero]

theorem startCount_clear (x : EffectType) (l : List ActiveEffect) :
    startCount x (l.map (fun a => EffectsCall.StopEffect a.EffectType)) = 0 := by
  simp [startCount, List.count_eq_zero]

theorem stopCount_clear (x : EffectType) (l : List ActiveEffect) :
    stopCount x (l.map (fun a => EffectsCall.StopEffect a.EffectType)) = activeCount x l := by
  induction l with
  | nil => rfl
  | cons a rest ih =>
    simp only [stopCount, activeCount, List.map_cons, List.count_cons, List.countP_cons] at ih ⊢
    rw [ih]
    by_cases h : a.EffectType = x <;> simp [h]

/-- One sweep stops exactly the entries for `x` that it removes, when all
entries for `x` have a timer of at least `1`. -/
theorem stopCount_sweep (x : EffectType) (l : List ActiveEffect)
    (h : ∀ a ∈ l, a.EffectType = x → 1 ≤ a.Timer) :
    stopCount x (sweepStops l) + activeCount x (sweepRef l) = activeCount x l := by
  induction l with
  | nil => rfl
  | cons a rest ih =>
    have ih1 := ih (fun b hb => h b (List.mem_cons_of_mem _ hb))
    have ha := h a (List.mem_cons_self _ _)
    rw [sweepStops_cons, sweepRef_cons]
    have hcons : activeCount x (a :: rest) =
        (if a.EffectType = x then 1 else 0) + activeCount x rest := by
      simp only [activeCount, List.countP_cons]
      by_cases hx : a.EffectType = x <;> simp [hx, Nat.add_comm]
    rw [hcons, ← ih1]
    by_cases h0 : a.Timer - 1 = 0
    · simp only [h0, if_true]
      by_cases hx : a.EffectType = x
      · simp only [stopCount, List.count_cons, hx, if_true]
        simp
        omega
      · have hne : ¬ (EffectsCall.StopEffect a.EffectType = EffectsCall.StopEffect x) := by
          simpa using hx
        simp only [stopCount, List.count_cons, hx, if_false]
        simp [hne]
    · simp only [h0, if_false]
      by_cases h1 : a.Timer - 1 ≤ -180
      · have hx : ¬ a.EffectType = x := fun hx => by have := ha hx; omega
        simp [h1, hx]
      · simp only [h1, if_false]
        have hdec : activeCount x (decTimer a :: sweepRef rest) =
            (if a.EffectType = x then 1 else 0) + activeCount x (sweepRef rest) := by
          simp only [activeCount, List.countP_cons, decTimer]
          by_cases hx : a.EffectType = x <;> simp [hx, Nat.add_comm]
        rw [hdec]
        omega

theorem Balanced_DispatchRandomEffect (Effect : EffectType → Option EffectInfo) (rnd : Int)
    (d d1 : EffectDispatcher) (hb : Balanced Effect d)
    (hd : DispatchRandomEffect Effect rnd d = some d1) : Balanced Effect d1 := by
  cases hinfo : Effect rnd with
  | none => simp [DispatchRandomEffect, hinfo] at hd
  | some info =>
    intro x infox hx htx
    have hbx := hb x infox hx htx
    by_cases hfresh : info.IsTimed = false ∨ ∀ a ∈ d.m_activeEffects, a.EffectType ≠ rnd
    · rw [DispatchRandomEffect_fresh Effect rnd d info hinfo hfresh] at hd
      cases hd
      simp only [startCount_append, stopCount_append, activeCount_append]
      rw [hbx]
      by_cases hrx : rnd = x
      · simp [startCount, stopCount, activeCount, hrx]
        omega
      · have hrx' : ¬ x = rnd := fun h => hrx h.symm
        simp [startCount, stopCount, activeCount, hrx, hrx', List.count_eq_zero]
    · rw [not_or] at hfresh
      obtain ⟨ht, hex⟩ := hfresh
      have ht1 : info.IsTimed = true := by simpa using ht
      push_neg at hex
      obtain ⟨pre, e, post, hl, hpre, he⟩ := exists_first_split rnd d.m_activeEffects hex
      rw [DispatchRandomEffect_refresh Effect rnd d info pre post e hinfo ht1 hl hpre he] at hd
      cases hd
      rw [hl] at hbx
      simpa [activeCount, List.countP_cons] using hbx

theorem Balanced_sweepRef (Effect : EffectType → Option EffectInfo) (d : EffectDispatcher)
    (extra : List EffectsCall) (hextra : ∀ x, startCount x extra = 0 ∧ stopCount x extra = 0)
    (hr : ∀ a ∈ d.m_activeEffects, TimerInRange Effect a) (hb : Balanced Effect d) :
    Balanced Effect
      { d with m_effects := d.m_effects ++ extra ++ sweepStops d.m_activeEffects
               m_activeEffects := sweepRef d.m_activeEffects } := by
  intro x infox hx htx
  have hbx := hb x infox hx htx
  have hpos : ∀ a ∈ d.m_activeEffects, a.EffectType = x → 1 ≤ a.Timer := by
    intro a ha hax
    obtain ⟨info, hinfo, ht, _⟩ := hr a ha
    rw [hax, hx] at hinfo
    cases hinfo
    exact (ht htx).1
  have hs := stopCount_sweep x d.m_activeEffects hpos
  simp only [startCount_append, stopCount_append, startCount_sweepStops, (hextra x).1,
    (hextra x).2]
  omega

theorem Balanced_log (Effect : EffectType → Option EffectInfo) (d : EffectDispatcher)
    (extra : List EffectsCall) (hextra : ∀ x, startCount x extra = 0 ∧ stopCount x extra = 0)
    (hb : Balanced Effect d) :
    Balanced Effect { d with m_effects := d.m_effects ++ extra } := by
  intro x infox hx htx
  have hbx := hb x infox hx htx
  simp only [startCount_append, stopCount_append, (hextra x).1, (hextra x).2]
  omega

theorem Balanced_ClearEffects (Effect : EffectType → Option EffectInfo) (d : EffectDispatcher)
    (hb : Balanced Effect d) : Balanced Effect (ClearEffects d) := by
  intro x infox hx htx
  have hbx := hb x infox hx htx
  simp only [ClearEffects, startCount_append, stopCount_append, startCount_clear,
    stopCount_clear, activeCount, List.countP_nil]
  simp only [activeCount] at hbx
  omega

theorem counts_nil (x : EffectType) :
    startCount x [] = 0 ∧ stopCount x [] = 0 := ⟨rfl, rfl⟩

theorem counts_UpdateEffects (x : EffectType) :
    startCount x [EffectsCall.UpdateEffects] = 0 ∧
      stopCount x [EffectsCall.UpdateEffects] = 0 := by
  simp [startCount, stopCount]

/-- The timer ranges are kept by every operation that returns. -/
theorem TimerInRange_apply (Effect : EffectType → Option EffectInfo)
    (hdur : DurationsPositive Effect) (op : Op) (d d1 : EffectDispatcher)
    (hr : ∀ a ∈ d.m_activeEffects, TimerInRange Effect a)
    (hd : Op.apply Effect d op = some d1) :
    ∀ a ∈ d1.m_activeEffects, TimerInRange Effect a := by
  cases op with
  | dispatch rnd => exact TimerInRange_DispatchRandomEffect Effect hdur rnd d d1 hr hd
  | sweep =>
    simp only [Op.apply, UpdateEffects.sweep_eq] at hd
    cases hd
    exact TimerInRange_sweepRef Effect _ hr
  | updateEffects tickInit tickNow =>
    simp only [Op.apply] at hd
    by_cases hg : 1000 < subDWORD64 tickNow (d.UpdateEffects_pastUpdateTime.getD tickInit)
    · rw [UpdateEffects_open tickInit tickNow d hg] at hd
      cases hd
      exact TimerInRange_sweepRef Effect _ hr
    · rw [UpdateEffects_closed tickInit tickNow d hg] at hd
      cases hd
      exact hr
  | updateTimer tickInit tickNow rnd =>
    simp only [Op.apply, UpdateTimer] at hd
    split at hd
    · exact TimerInRange_DispatchRandomEffect Effect hdur rnd _ d1 (by exact hr) hd
    · cases hd
      exact hr
  | clear =>
    simp only [Op.apply] at hd
    cases hd
    simp [ClearEffects]

/-- The balance of starts and stops is kept by every operation that returns,
from a state whose timers are in range. -/
theorem Balanced_apply (Effect : EffectType → Option EffectInfo) (op : Op)
    (d d1 : EffectDispatcher)
    (hr : ∀ a ∈ d.m_activeEffects, TimerInRange Effect a) (hb : Balanced Effect d)
    (hd : Op.apply Effect d op = some d1) : Balanced Effect d1 := by
  cases op with
  | dispatch rnd => exact Balanced_DispatchRandomEffect Effect rnd d d1 hb hd
  | sweep =>
    simp only [Op.apply, UpdateEffects.sweep_eq] at hd
    cases hd
    have := Balanced_sweepRef Effect d [] counts_nil hr hb
    simpa using this
  | updateEffects tickInit tickNow =>
    simp only [Op.apply] at hd
    by_cases hg : 1000 < subDWORD64 tickNow (d.UpdateEffects_pastUpdateTime.getD tickInit)
    · rw [UpdateEffects_open tickInit tickNow d hg] at hd
      cases hd
      exact Balanced_sweepRef Effect d [EffectsCall.UpdateEffects] counts_UpdateEffects hr hb
    · rw [UpdateEffects_closed tickInit tickNow d hg] at hd
      cases hd
      exact Balanced_log Effect d [EffectsCall.UpdateEffects] counts_UpdateEffects hb
  | updateTimer tickInit tickNow rnd =>
    simp only [Op.apply, UpdateTimer] at hd
    split at hd
    · exact Balanced_DispatchRandomEffect Effect rnd _ d1 (by exact hb) hd
    · cases hd
      exact hb
  | clear =>
    simp only [Op.apply] at hd
    cases hd
    exact Balanced_ClearEffects Effect d hb

theorem TimerInRange_run (Effect : EffectType → Option EffectInfo)
    (hdur : DurationsPositive Effect) (ops : List Op) :
    ∀ (d d1 : EffectDispatcher), (∀ a ∈ d.m_activeEffects, TimerInRange Effect a) →
      run Effect ops d = some d1 → ∀ a ∈ d1.m_activeEffects, TimerInRange Effect a := by
  induction ops with
  | nil =>
    intro d d1 hr hd
    simp only [run] at hd
    cases hd
    exact hr
  | cons op ops ih =>
    intro d d1 hr hd
    cases hop : Op.apply Effect d op with
    | none => simp [run, hop] at hd
    | some d2 =>
      rw [run_cons_of_eq Effect op ops d d2 hop] at hd
      exact ih d2 d1 (TimerInRange_apply Effect hdur op d d2 hr hop) hd

theorem Balanced_run (Effect : EffectType → Option EffectInfo)
    (hdur : DurationsPositive Effect) (ops : List Op) :
    ∀ (d d1 : EffectDispatcher), (∀ a ∈ d.m_activeEffects, TimerInRange Effect a) →
      Balanced Effect d → run Effect ops d = some d1 → Balanced Effect d1 := by
  induction ops with
  | nil =>
    intro d d1 _ hb hd
    simp only [run] at hd
    cases hd
    exact hb
  | cons op ops ih =>
    intro d d1 hr hb hd
    cases hop : Op.apply Effect d op with
    | none => simp [run, hop] at hd
    | some d2 =>
      rw [run_cons_of_eq Effect op ops d d2 hop] at hd
      exact ih d2 d1 (TimerInRange_apply Effect hdur op d d2 hr hop)
        (Balanced_apply Effect op d d2 hr hb hop) hd

/-- At most one entry per timed identifier, as a count. -/
theorem activeCount_le_one (Effect : EffectType → Option EffectInfo) (l : List ActiveEffect)
    (h : NoDupTimed Effect l) (x : EffectType) (info : EffectInfo) (hx : Effect x = some info)
    (ht : info.IsTimed = true) : activeCount x l ≤ 1 := by
  induction l with
  | nil => simp [activeCount]
  | cons a rest ih =>
    rw [NoDupTimed, List.pairwise_cons] at h
    have ih1 := ih h.2
    by_cases hax : a.EffectType = x
    · have hzero : activeCount x rest = 0 := by
        simp only [activeCount, List.countP_eq_zero, decide_eq_true_eq]
        intro b hb hbx
        have := h.1 b hb (hax.trans hbx.symm) info (hax ▸ hx)
        rw [ht] at this
        exact absurd this (by decide)
      simp only [activeCount, List.countP_cons, hax, decide_True, if_true] at hzero ⊢
      omega
    · simp only [activeCount, List.countP_cons, hax, decide_False] at ih1 ⊢
      simpa using ih1

/-! ## Entries with a negative timer -/

theorem sweepStops_of_nonpos (l : List ActiveEffect) (h : ∀ a ∈ l, a.Timer ≤ 0) :
    sweepStops l = [] := by
  unfold sweepStops
  rw [List.map_eq_nil_iff, List.filter_eq_nil_iff]
  intro a ha
  have := h a ha
  simp only [decide_eq_true_eq]
  omega

theorem sweepRef_nonpos (l : List ActiveEffect) (h : ∀ a ∈ l, a.Timer ≤ 0) :
    ∀ a ∈ sweepRef l, a.Timer ≤ 0 := by
  intro a ha
  obtain ⟨b, hb, rfl, _, _⟩ := mem_sweepRef ha
  have := h b hb
  simp only [decTimer]
  omega

/-- Entries with a timer `<= 0` never add a stop call to any number of sweeps. -/
theorem sweepStopsN_append_nonpos (n : Nat) :
    ∀ l₁ l₂ : List ActiveEffect, (∀ a ∈ l₂, a.Timer ≤ 0) →
      sweepStopsN n (l₁ ++ l₂) = sweepStopsN n l₁ := by
  induction n with
  | zero => intro l₁ l₂ _; rfl
  | succ n ih =>
    intro l₁ l₂ h
    rw [sweepStopsN, sweepStopsN, sweepStops_append, sweepRef_append,
      sweepStops_of_nonpos l₂ h, List.append_nil, ih _ _ (sweepRef_nonpos l₂ h)]

theorem iterate_sweepRef_purge_ge (e : ActiveEffect) (he : e.Timer = -1) (n : Nat)
    (hn : 179 ≤ n) : sweepRef^[n] [e] = [] := by
  obtain ⟨j, rfl⟩ : ∃ j, n = j + 179 := ⟨n - 179, by omega⟩
  rw [Function.iterate_add_apply, iterate_sweepRef_purge e he 179 rfl, iterate_sweepRef_nil]

/-- No `StopEffect` for `x` is issued by any number of sweeps when every entry
for `x` has a timer `<= 0`. -/
theorem not_mem_sweepStopsN (x : EffectType) (n : Nat) :
    ∀ l : List ActiveEffect, (∀ a ∈ l, a.EffectType = x → a.Timer ≤ 0) →
      EffectsCall.StopEffect x ∉ sweepStopsN n l := by
  induction n with
  | zero => intro l _; simp [sweepStopsN]
  | succ n ih =>
    intro l h
    rw [sweepStopsN, List.mem_append, not_or]
    constructor
    · unfold sweepStops
      simp only [List.mem_map, List.mem_filter, decide_eq_true_eq, not_exists, not_and]
      intro a ha hc
      have hax : a.EffectType = x := by simpa using hc
      have := h a ha.1 hax
      omega
    · apply ih
      intro a ha hax
      obtain ⟨b, hb, rfl, _, _⟩ := mem_sweepRef ha
      have := h b hb hax
      simp only [decTimer]
      omega

theorem catalogAB_durations : DurationsPositive catalogAB := by
  intro x info hx ht
  unfold catalogAB at hx
  split at hx
  · cases hx; decide
  · cases hx; simp at ht
  · simp at hx

/-! ## `Draw` -/

/-- On the values of the 32-bit type `decInt` is the two's complement decrement. -/
theorem decInt_eq_wrap (t : Int) (h1 : INT_MIN ≤ t) (h2 : t ≤ INT_MAX) :
    decInt t = (t - 1 + 2 ^ 31) % 2 ^ 32 - 2 ^ 31 := by
  unfold decInt
  unfold INT_MIN INT_MAX at *
  norm_num
  split_ifs <;> omega

theorem labelYs_append (l₁ l₂ : List NativeCall) :
    labelYs (l₁ ++ l₂) = labelYs l₁ ++ labelYs l₂ := by
  induction l₁ with
  | nil => rfl
  | cons c rest ih => cases c <;> simp [labelYs, ih]

/-! ## Properties of the specification -/

/-- C1 (dedup invariant): starting from any dispatcher whose active-effect
collection is empty, after every sequence of dispatches (with any random
draws), sweeps, `UpdateEffects`, `UpdateTimer` and `ClearEffects` calls that
returns, the collection has no two entries with the same identifier whose
catalog descriptor is timed. -/
theorem dedup_invariant (Effect : EffectType → Option EffectInfo) (ops : List Op)
    (d0 d : EffectDispatcher) (hempty : d0.m_activeEffects = [])
    (hrun : run Effect ops d0 = some d) : NoDupTimed Effect d.m_activeEffects :=
  NoDupTimed_run Effect ops d0 d (hempty ▸ NoDupTimed_nil Effect) hrun

theorem dedup_invariant_witness :
    EffectDispatcher.ctor.m_activeEffects = [] ∧
    run catalogAB [Op.dispatch 0, Op.sweep, Op.dispatch 0, Op.dispatch 1, Op.dispatch 1]
        EffectDispatcher.ctor =
      some { EffectDispatcher.ctor with
        m_effects := [EffectsCall.New, EffectsCall.StartEffect 0, EffectsCall.StartEffect 1,
          EffectsCall.StartEffect 1]
        m_activeEffects := [⟨0, "A", 180⟩, ⟨1, "B", -1⟩, ⟨1, "B", -1⟩] } ∧
    NoDupTimed catalogAB [⟨0, "A", 180⟩, ⟨1, "B", -1⟩, ⟨1, "B", -1⟩] :=
  ⟨rfl, by decide,
    dedup_invariant catalogAB [Op.dispatch 0, Op.sweep, Op.dispatch 0, Op.dispatch 1, Op.dispatch 1]
      EffectDispatcher.ctor
      { EffectDispatcher.ctor with
        m_effects := [EffectsCall.New, EffectsCall.StartEffect 0, EffectsCall.StartEffect 1,
          EffectsCall.StartEffect 1]
        m_activeEffects := [⟨0, "A", 180⟩, ⟨1, "B", -1⟩, ⟨1, "B", -1⟩] }
      rfl (by decide)⟩

/-- C2 (refresh resets the timer to the nominal duration), evaluated on the code:
with "A" timed of duration 10, dispatching "A", sweeping five times and
dispatching "A" again leaves the single entry with timer 180, not 10. -/
theorem refresh_timer_is_180_not_duration :
    (catalogAB 0).map (fun info => (info.IsTimed, info.Duration)) = some (true, 10) ∧
    (run catalogAB [Op.dispatch 0, Op.sweep, Op.sweep, Op.sweep, Op.sweep, Op.sweep]
        EffectDispatcher.ctor).map (fun d => d.m_activeEffects) = some [⟨0, "A", 5⟩] ∧
    (run catalogAB [Op.dispatch 0, Op.sweep, Op.sweep, Op.sweep, Op.sweep, Op.sweep, Op.dispatch 0]
        EffectDispatcher.ctor).map (fun d => d.m_activeEffects) = some [⟨0, "A", 180⟩] := by
  decide

/-- C3 (refresh is not an activation): when the drawn identifier is timed and
already has an entry, `DispatchRandomEffect` returns, makes no executor call
(so no start call), keeps the length of the collection, keeps identifier and
name at every position (order unchanged), and leaves every position other than
that of the first entry with the drawn identifier fully unchanged. -/
theorem refresh_is_not_activation (Effect : EffectType → Option EffectInfo) (rnd : Int)
    (d : EffectDispatcher) (info : EffectInfo) (hinfo : Effect rnd = some info)
    (ht : info.IsTimed = true) (hex : ∃ a ∈ d.m_activeEffects, a.EffectType = rnd) :
    ∃ d1, DispatchRandomEffect Effect rnd d = some d1 ∧
      d1.m_effects = d.m_effects ∧
      d1.m_activeEffects.length = d.m_activeEffects.length ∧
      d1.m_activeEffects.map (fun a => (a.EffectType, a.Name)) =
        d.m_activeEffects.map (fun a => (a.EffectType, a.Name)) ∧
      ∀ i : Nat, i ≠ d.m_activeEffects.findIdx (fun a => decide (a.EffectType = rnd)) →
        d1.m_activeEffects[i]? = d.m_activeEffects[i]? := by
  have hfst := DispatchRandomEffect.loop_fst rnd d.m_activeEffects hex
  have hmap := DispatchRandomEffect.loop_map rnd d.m_activeEffects
  refine ⟨{ d with m_activeEffects := (DispatchRandomEffect.loop rnd d.m_activeEffects).2
                   m_percentage := 0 }, ?_, rfl, ?_, hmap, ?_⟩
  · simp [DispatchRandomEffect, hinfo, ht, hfst]
  · have := congrArg List.length hmap
    simpa using this
  · exact DispatchRandomEffect.loop_getElem? rnd d.m_activeEffects

theorem refresh_is_not_activation_witness :
    ∃ d1, DispatchRandomEffect catalogAB 0
        { EffectDispatcher.ctor with m_activeEffects := [⟨1, "B", -1⟩, ⟨0, "A", 5⟩] } = some d1 ∧
      d1.m_effects = [EffectsCall.New] ∧
      d1.m_activeEffects.length = 2 ∧
      d1.m_activeEffects.map (fun a => (a.EffectType, a.Name)) = [(1, "B"), (0, "A")] ∧
      ∀ i : Nat, i ≠ 1 →
        d1.m_activeEffects[i]? = ([⟨1, "B", -1⟩, ⟨0, "A", 5⟩] : List ActiveEffect)[i]? :=
  refresh_is_not_activation catalogAB 0
    { EffectDispatcher.ctor with m_activeEffects := [⟨1, "B", -1⟩, ⟨0, "A", 5⟩] }
    ⟨"A", true, 10⟩ rfl rfl ⟨⟨0, "A", 5⟩, by decide, rfl⟩

/-- C4 (fresh activation): when the catalog has a descriptor for the drawn
identifier and the identifier is non-timed (with or without an active entry)
or is timed without an active entry, `DispatchRandomEffect` returns, the
executor receives exactly one more call, `StartEffect` for that identifier,
and exactly one entry is appended at the end of the collection, with the
descriptor's name and timer `Duration` if timed and `-1` otherwise; the
entries already present are unchanged. -/
theorem fresh_activation (Effect : EffectType → Option EffectInfo) (rnd : Int)
    (d : EffectDispatcher) (info : EffectInfo) (hinfo : Effect rnd = some info)
    (h : info.IsTimed = false ∨ ∀ a ∈ d.m_activeEffects, a.EffectType ≠ rnd) :
    ∃ d1, DispatchRandomEffect Effect rnd d = some d1 ∧
      d1.m_effects = d.m_effects ++ [EffectsCall.StartEffect rnd] ∧
      d1.m_activeEffects = d.m_activeEffects ++
        [{ EffectType := rnd, Name := info.Name,
           Timer := if info.IsTimed then info.Duration else -1 }] :=
  ⟨_, DispatchRandomEffect_fresh Effect rnd d info hinfo h, rfl, rfl⟩

theorem fresh_activation_witness :
    ∃ d1, DispatchRandomEffect catalogAB 1
        { EffectDispatcher.ctor with
          m_effects := [EffectsCall.New, EffectsCall.StartEffect 1]
          m_activeEffects := [⟨1, "B", -1⟩] } = some d1 ∧
      d1.m_effects = [EffectsCall.New, EffectsCall.StartEffect 1] ++ [EffectsCall.StartEffect 1] ∧
      d1.m_activeEffects = [⟨1, "B", -1⟩] ++ [⟨1, "B", if false then 0 else -1⟩] :=
  fresh_activation catalogAB 1
    { EffectDispatcher.ctor with
      m_effects := [EffectsCall.New, EffectsCall.StartEffect 1]
      m_activeEffects := [⟨1, "B", -1⟩] }
    ⟨"B", false, 0⟩ rfl (Or.inl rfl)

/-- C5 (expiry calls stop exactly once): let the collection be `pre ++ e :: post`
with `e.Timer = n >= 1`. For every `k < n` the first `k` sweeps return and keep
the entry, with timer `n - k`, between what the sweeps leave of `pre` and of
`post`. Sweep number `k + 1` returns too; when `k + 1 < n` the executor calls it
issues are only those for the entries before and after `e` (none for `e`) and
the entry is kept; when `k + 1 = n` it issues, between those, exactly one
`StopEffect` for `e` and the entry is removed in that sweep. So the `n` sweeps
return and leave what they leave of `pre` and of `post`, without the entry. -/
theorem expiry_stops_exactly_once (d : EffectDispatcher) (pre post : List ActiveEffect)
    (e : ActiveEffect) (n : Nat) (hn : 1 ≤ n) (he : e.Timer = n)
    (hl : d.m_activeEffects = pre ++ e :: post) :
    (∃ dn, sweeps n d = some dn ∧
      dn.m_activeEffects = sweepRef^[n] pre ++ sweepRef^[n] post) ∧
    ∀ k : Nat, k < n → ∃ dk dk1,
      sweeps k d = some dk ∧
      dk.m_activeEffects =
        sweepRef^[k] pre ++ { e with Timer := (n : Int) - k } :: sweepRef^[k] post ∧
      UpdateEffects.sweep dk = some dk1 ∧
      sweeps (k + 1) d = some dk1 ∧
      (k + 1 < n →
        dk1.m_effects =
          dk.m_effects ++ sweepStops (sweepRef^[k] pre) ++ sweepStops (sweepRef^[k] post) ∧
        dk1.m_activeEffects =
          sweepRef^[k + 1] pre ++ { e with Timer := (n : Int) - (k + 1) } ::
            sweepRef^[k + 1] post) ∧
      (k + 1 = n →
        dk1.m_effects =
          dk.m_effects ++ sweepStops (sweepRef^[k] pre) ++
            [EffectsCall.StopEffect e.EffectType] ++ sweepStops (sweepRef^[k] post) ∧
        dk1.m_activeEffects = sweepRef^[n] pre ++ sweepRef^[n] post) := by
  suffices hmain : ∀ k : Nat, k < n → ∃ dk dk1,
      sweeps k d = some dk ∧
      dk.m_activeEffects =
        sweepRef^[k] pre ++ { e with Timer := (n : Int) - k } :: sweepRef^[k] post ∧
      UpdateEffects.sweep dk = some dk1 ∧
      sweeps (k + 1) d = some dk1 ∧
      (k + 1 < n →
        dk1.m_effects =
          dk.m_effects ++ sweepStops (sweepRef^[k] pre) ++ sweepStops (sweepRef^[k] post) ∧
        dk1.m_activeEffects =
          sweepRef^[k + 1] pre ++ { e with Timer := (n : Int) - (k + 1) } ::
            sweepRef^[k + 1] post) ∧
      (k + 1 = n →
        dk1.m_effects =
          dk.m_effects ++ sweepStops (sweepRef^[k] pre) ++
            [EffectsCall.StopEffect e.EffectType] ++ sweepStops (sweepRef^[k] post) ∧
        dk1.m_activeEffects = sweepRef^[n] pre ++ sweepRef^[n] post) by
    refine ⟨?_, hmain⟩
    obtain ⟨_, dk1, _, _, _, h4, _, h6⟩ := hmain (n - 1) (by omega)
    have hn1 : n - 1 + 1 = n := by omega
    rw [hn1] at h4
    exact ⟨dk1, h4, (h6 hn1).2⟩
  intro k hk
  have hsingle : ∀ j : Nat, j < n →
      sweepRef^[j] [e] = [{ e with Timer := (n : Int) - j }] := by
    intro j hj
    rw [iterate_sweepRef_single e j (fun i _ hi => by rw [he]; omega), he]
  have hlist : ∀ j : Nat, j < n → sweepRef^[j] d.m_activeEffects =
      sweepRef^[j] pre ++ { e with Timer := (n : Int) - j } :: sweepRef^[j] post := by
    intro j hj
    have : pre ++ e :: post = pre ++ ([e] ++ post) := rfl
    rw [hl, this, iterate_sweepRef_append, iterate_sweepRef_append, hsingle j hj]
    rfl
  have hk0 := sweeps_eq k d
  have hk1 := sweeps_succ k d _ hk0
  rw [UpdateEffects.sweep_eq] at hk1
  refine ⟨_, _, hk0, hlist k hk, UpdateEffects.sweep_eq _, hk1, ?_, ?_⟩
  · intro hlt
    have hne : ¬ ((n : Int) - k = 1) := by omega
    constructor
    · show _ ++ sweepStops (sweepRef^[k] d.m_activeEffects) = _
      have : ∀ x : ActiveEffect, x :: sweepRef^[k] post = [x] ++ sweepRef^[k] post :=
        fun _ => rfl
      rw [hlist k hk, this, sweepStops_append, sweepStops_append, sweepStops_single]
      simp [hne]
    · show sweepRef (sweepRef^[k] d.m_activeEffects) = _
      rw [← Function.iterate_succ_apply' sweepRef k, hlist (k + 1) hlt]
      push_cast
      rfl
  · intro heq
    have hone : (n : Int) - k = 1 := by omega
    constructor
    · show _ ++ sweepStops (sweepRef^[k] d.m_activeEffects) = _
      have : ∀ x : ActiveEffect, x :: sweepRef^[k] post = [x] ++ sweepRef^[k] post :=
        fun _ => rfl
      rw [hlist k hk, this, sweepStops_append, sweepStops_append, sweepStops_single]
      simp [hone]
    · show sweepRef (sweepRef^[k] d.m_activeEffects) = _
      have : ∀ x : ActiveEffect, x :: sweepRef^[k] post = [x] ++ sweepRef^[k] post :=
        fun _ => rfl
      rw [hlist k hk, this, sweepRef_append, sweepRef_append,
        sweepRef_single_one _ (by simpa using hone), ← heq,
        Function.iterate_succ_apply' sweepRef k pre, Function.iterate_succ_apply' sweepRef k post]
      simp

theorem expiry_stops_exactly_once_witness :
    (run catalogAB [Op.dispatch 0] EffectDispatcher.ctor).map (fun d => d.m_activeEffects) =
      some [⟨0, "A", 10⟩] ∧
    ∃ dk dk1,
      sweeps 9 { EffectDispatcher.ctor with
        m_effects := [EffectsCall.New, EffectsCall.StartEffect 0]
        m_activeEffects := [⟨0, "A", 10⟩] } = some dk ∧
      dk.m_activeEffects = [⟨0, "A", 1⟩] ∧
      dk.m_effects = [EffectsCall.New, EffectsCall.StartEffect 0] ∧
      UpdateEffects.sweep dk = some dk1 ∧
      dk1.m_effects = dk.m_effects ++ [EffectsCall.StopEffect 0] ∧
      dk1.m_activeEffects = [] := by
  refine ⟨by decide, ?_⟩
  obtain ⟨dk, dk1, h1, h2, h3, _, _, h6⟩ :=
    (expiry_stops_exactly_once
      { EffectDispatcher.ctor with
        m_effects := [EffectsCall.New, EffectsCall.StartEffect 0]
        m_activeEffects := [⟨0, "A", 10⟩] }
      [] [] ⟨0, "A", 10⟩ 10 (by decide) rfl rfl).2 9 (by decide)
  have h7 := h6 rfl
  simp only [iterate_sweepRef_nil, sweepStops_nil, List.nil_append, List.append_nil] at h2 h7
  refine ⟨dk, dk1, h1, by simpa using h2, ?_, h3, h7.1, h7.2⟩
  have hd : sweeps 9 { EffectDispatcher.ctor with
        m_effects := [EffectsCall.New, EffectsCall.StartEffect 0]
        m_activeEffects := [⟨0, "A", 10⟩] } =
      some { EffectDispatcher.ctor with
        m_effects := [EffectsCall.New, EffectsCall.StartEffect 0]
        m_activeEffects := [⟨0, "A", 1⟩] } := by decide
  rw [hd] at h1
  cases h1
  rfl

set_option maxRecDepth 100000 in
/-- C6 (non-timed effects are never auto-removed), refuted on the code: with "B"
non-timed, after dispatching "B" one sweep leaves its entry with timer `-2`, not
`-1`, and after 179 sweeps the collection is empty although `ClearEffects` was
never called and no stop call was issued. -/
theorem nontimed_entry_ages_and_is_purged :
    (catalogAB 1).map (fun info => info.IsTimed) = some false ∧
    (run catalogAB [Op.dispatch 1] EffectDispatcher.ctor).map
        (fun d => d.m_activeEffects) = some [⟨1, "B", -1⟩] ∧
    (run catalogAB [Op.dispatch 1, Op.sweep] EffectDispatcher.ctor).map
        (fun d => d.m_activeEffects) = some [⟨1, "B", -2⟩] ∧
    (run catalogAB (Op.dispatch 1 :: List.replicate 179 Op.sweep) EffectDispatcher.ctor).map
        (fun d => (d.m_activeEffects, d.m_effects)) =
      some ([], [EffectsCall.New, EffectsCall.StartEffect 1]) := by
  decide

/-- C6 as amended: for a non-timed identifier, `DispatchRandomEffect` appends
the entry with timer `-1`; after `n <= 178` sweeps the entry is still the last of
the collection, with timer `-1 - n`; after the 179th sweep it is gone (and
`ClearEffects` empties the collection at any time). -/
theorem nontimed_kept_for_178_sweeps (Effect : EffectType → Option EffectInfo) (rnd : Int)
    (d : EffectDispatcher) (info : EffectInfo) (hinfo : Effect rnd = some info)
    (ht : info.IsTimed = false) :
    ∃ d1, DispatchRandomEffect Effect rnd d = some d1 ∧
      d1.m_activeEffects = d.m_activeEffects ++ [⟨rnd, info.Name, -1⟩] ∧
      (∀ n : Nat, n ≤ 178 → ∃ dn, sweeps n d1 = some dn ∧
        dn.m_activeEffects =
          sweepRef^[n] d.m_activeEffects ++ [⟨rnd, info.Name, -1 - (n : Int)⟩] ∧
        (ClearEffects dn).m_activeEffects = []) ∧
      (∃ dn, sweeps 179 d1 = some dn ∧
        dn.m_activeEffects = sweepRef^[179] d.m_activeEffects) := by
  have hd := DispatchRandomEffect_fresh Effect rnd d info hinfo (Or.inl ht)
  simp only [ht] at hd
  have hkeep : ∀ n : Nat, n ≤ 178 →
      sweepRef^[n] [(⟨rnd, info.Name, -1⟩ : ActiveEffect)] = [⟨rnd, info.Name, -1 - (n : Int)⟩] := by
    intro n hn
    rw [iterate_sweepRef_single _ n (fun j _ hj => by simp only; omega)]
  refine ⟨_, hd, by simp, ?_, ?_⟩
  · intro n hn
    refine ⟨_, sweeps_eq n _, ?_, rfl⟩
    show sweepRef^[n] (d.m_activeEffects ++ _) = _
    simp only [Bool.false_eq_true, if_false]
    rw [iterate_sweepRef_append, hkeep n hn]
  · refine ⟨_, sweeps_eq 179 _, ?_⟩
    dsimp only
    simp only [Bool.false_eq_true, if_false]
    rw [iterate_sweepRef_append, iterate_sweepRef_purge _ rfl 179 rfl, List.append_nil]

theorem nontimed_kept_for_178_sweeps_witness :
    ∃ d1, DispatchRandomEffect catalogAB 1 EffectDispatcher.ctor = some d1 ∧
      d1.m_activeEffects = [] ++ [⟨1, "B", -1⟩] ∧
      (∀ n : Nat, n ≤ 178 → ∃ dn, sweeps n d1 = some dn ∧
        dn.m_activeEffects = sweepRef^[n] [] ++ [⟨1, "B", -1 - (n : Int)⟩] ∧
        (ClearEffects dn).m_activeEffects = []) ∧
      (∃ dn, sweeps 179 d1 = some dn ∧ dn.m_activeEffects = sweepRef^[179] []) :=
  nontimed_kept_for_178_sweeps catalogAB 1 EffectDispatcher.ctor ⟨"B", false, 0⟩ rfl rfl

/-- C7 (bulk clear): `ClearEffects` issues exactly one `StopEffect` per entry,
with that entry's identifier and in collection order (so `N` calls for `N`
entries), and empties the collection; a second `ClearEffects` right after changes
nothing (no call); the destructor is this clear followed by the release of the
executor. -/
theorem bulk_clear (d : EffectDispatcher) :
    (ClearEffects d).m_effects =
        d.m_effects ++ d.m_activeEffects.map (fun a => EffectsCall.StopEffect a.EffectType) ∧
      ((ClearEffects d).m_effects.drop d.m_effects.length).length = d.m_activeEffects.length ∧
      (ClearEffects d).m_activeEffects = [] ∧
      (ClearEffects (ClearEffects d)).m_effects = (ClearEffects d).m_effects ∧
      (ClearEffects (ClearEffects d)).m_activeEffects = [] ∧
      (EffectDispatcher.dtor d).m_effects = (ClearEffects d).m_effects ++ [EffectsCall.Delete] ∧
      (EffectDispatcher.dtor d).m_activeEffects = [] := by
  refine ⟨rfl, ?_, rfl, ?_, rfl, rfl, rfl⟩
  · simp [ClearEffects]
  · simp [ClearEffects]

/-- C9 (removal during the sweep neither skips nor revisits entries): for every
collection the erase-and-advance loop returns, and the collection after the
sweep is the reference `sweepRef`: all timers decremented by one, then filtered
to the entries whose new timer is neither `0` nor `<= -180`, in the original
order. -/
theorem sweep_refines_map_filter (d : EffectDispatcher) :
    ∃ d1, UpdateEffects.sweep d = some d1 ∧
      d1.m_activeEffects = sweepRef d.m_activeEffects ∧
      sweepRef d.m_activeEffects =
        (d.m_activeEffects.map (fun a => { a with Timer := a.Timer - 1 })).filter
          (fun a => !(decide (a.Timer = 0)) && !(decide (a.Timer ≤ -180))) :=
  ⟨_, UpdateEffects.sweep_eq d, rfl, rfl⟩

/-- C10 (dispatch trigger): for a clock reading `tickNow` (a `DWORD64`) not
before the last dispatch time `past`, `UpdateTimer` stores the rounded quotient
in `m_percentage`; if `tickNow - past > 60000` it is exactly one
`DispatchRandomEffect` run from the state whose last dispatch time is
`tickNow`, and that time is still `tickNow` when it returns; otherwise (also at
exactly `60000`) it returns with no dispatch: executor log, collection and last
dispatch time are unchanged. -/
theorem dispatch_trigger (Effect : EffectType → Option EffectInfo) (tickInit tickNow : Nat)
    (rnd : Int) (d : EffectDispatcher) (hnow : tickNow < 2 ^ 64)
    (hle : d.UpdateTimer_pastUpdateTime.getD tickInit ≤ tickNow) :
    (60000 < tickNow - d.UpdateTimer_pastUpdateTime.getD tickInit →
      UpdateTimer Effect tickInit tickNow rnd d =
        DispatchRandomEffect Effect rnd
          { d with
            m_percentage :=
              UpdateTimer.percentage (tickNow - d.UpdateTimer_pastUpdateTime.getD tickInit)
            UpdateTimer_pastUpdateTime := some tickNow } ∧
      ∀ d1, UpdateTimer Effect tickInit tickNow rnd d = some d1 →
        d1.UpdateTimer_pastUpdateTime = some tickNow) ∧
    (¬ 60000 < tickNow - d.UpdateTimer_pastUpdateTime.getD tickInit →
      UpdateTimer Effect tickInit tickNow rnd d =
        some { d with
          m_percentage :=
            UpdateTimer.percentage (tickNow - d.UpdateTimer_pastUpdateTime.getD tickInit)
          UpdateTimer_pastUpdateTime := some (d.UpdateTimer_pastUpdateTime.getD tickInit) }) := by
  have hsub := subDWORD64_of_le hnow hle
  constructor
  · intro h
    have hgate := (f32_gate _).2 h
    have heq : UpdateTimer Effect tickInit tickNow rnd d =
        DispatchRandomEffect Effect rnd
          { d with
            m_percentage :=
              UpdateTimer.percentage (tickNow - d.UpdateTimer_pastUpdateTime.getD tickInit)
            UpdateTimer_pastUpdateTime := some tickNow } := by
      simp only [UpdateTimer, hsub, gt_iff_lt, hgate, if_true]
    refine ⟨heq, ?_⟩
    intro d1 hd1
    rw [heq] at hd1
    exact DispatchRandomEffect_pastUpdateTime Effect rnd _ d1 hd1
  · intro h
    have hgate : ¬ 1 < UpdateTimer.percentage
        (tickNow - d.UpdateTimer_pastUpdateTime.getD tickInit) := fun hg => h ((f32_gate _).1 hg)
    simp only [UpdateTimer, hsub, gt_iff_lt, hgate, if_false]

theorem dispatch_trigger_witness :
    ((60001 : Nat) < 2 ^ 64 ∧ EffectDispatcher.ctor.UpdateTimer_pastUpdateTime.getD 0 ≤ 60001) ∧
    ((60000 < 60001 - EffectDispatcher.ctor.UpdateTimer_pastUpdateTime.getD 0 →
      UpdateTimer catalogAB 0 60001 0 EffectDispatcher.ctor =
        DispatchRandomEffect catalogAB 0
          { EffectDispatcher.ctor with
            m_percentage :=
              UpdateTimer.percentage (60001 - EffectDispatcher.ctor.UpdateTimer_pastUpdateTime.getD 0)
            UpdateTimer_pastUpdateTime := some 60001 } ∧
      ∀ d1, UpdateTimer catalogAB 0 60001 0 EffectDispatcher.ctor = some d1 →
        d1.UpdateTimer_pastUpdateTime = some 60001) ∧
    (¬ 60000 < 60001 - EffectDispatcher.ctor.UpdateTimer_pastUpdateTime.getD 0 →
      UpdateTimer catalogAB 0 60001 0 EffectDispatcher.ctor =
        some { EffectDispatcher.ctor with
          m_percentage :=
            UpdateTimer.percentage (60001 - EffectDispatcher.ctor.UpdateTimer_pastUpdateTime.getD 0)
          UpdateTimer_pastUpdateTime :=
            some (EffectDispatcher.ctor.UpdateTimer_pastUpdateTime.getD 0) })) :=
  ⟨⟨by norm_num, by decide⟩,
    dispatch_trigger catalogAB 0 60001 0 EffectDispatcher.ctor (by norm_num) (by decide)⟩

/-- C11 (a backward clock jump only delays the dispatch), refuted on the code:
the static holds `100000` after a first `UpdateTimer` call at tick `100000`; a
second call reading the earlier tick `100` dispatches (the drawn effect "A" is
started and appended) and sets the last dispatch time to `100`. -/
theorem backward_jump_dispatches :
    (100 : Nat) < 100000 ∧
    (run catalogAB [Op.updateTimer 100000 100000 0] EffectDispatcher.ctor).map
        (fun d => (d.m_activeEffects, d.m_effects, d.UpdateTimer_pastUpdateTime)) =
      some ([], [EffectsCall.New], some 100000) ∧
    (run catalogAB [Op.updateTimer 100000 100000 0, Op.updateTimer 0 100 0]
        EffectDispatcher.ctor).map
        (fun d => (d.m_activeEffects, d.m_effects, d.UpdateTimer_pastUpdateTime)) =
      some ([⟨0, "A", 10⟩], [EffectsCall.New, EffectsCall.StartEffect 0], some 100) := by
  have h1 := UpdateTimer_hold catalogAB 100000 100000 0 EffectDispatcher.ctor (by decide)
  have h2 := UpdateTimer_fire catalogAB 0 100 0
    { EffectDispatcher.ctor with
      m_percentage := UpdateTimer.percentage
        (subDWORD64 100000 (EffectDispatcher.ctor.UpdateTimer_pastUpdateTime.getD 100000))
      UpdateTimer_pastUpdateTime :=
        some (EffectDispatcher.ctor.UpdateTimer_pastUpdateTime.getD 100000) }
    (by decide)
  have e0 := run_cons_of_eq catalogAB (Op.updateTimer 100000 100000 0) []
    EffectDispatcher.ctor _ h1
  have e1 := run_cons_of_eq catalogAB (Op.updateTimer 100000 100000 0) [Op.updateTimer 0 100 0]
    EffectDispatcher.ctor _ h1
  have e2 := run_cons_of_eq catalogAB (Op.updateTimer 0 100 0) [] _ _ (h2.trans rfl)
  exact ⟨by decide, (congrArg (Option.map _) e0).trans rfl,
    (congrArg (Option.map _) (e1.trans e2)).trans rfl⟩

/-- C11 as amended: for a clock reading `tickNow` strictly before the last
dispatch time `past` (a `DWORD64`), the elapsed value is the wrapped difference
`2 ^ 64 - (past - tickNow)` and the progress value is never negative. When the
wrapped difference exceeds `60000` the progress value is greater than `1`,
`UpdateTimer` is one `DispatchRandomEffect` and the last dispatch time becomes
`tickNow`; only when it is at most `60000` there is no dispatch, and executor
log, collection and last dispatch time are unchanged. -/
theorem backward_jump_wraps (Effect : EffectType → Option EffectInfo) (tickInit tickNow : Nat)
    (rnd : Int) (d : EffectDispatcher)
    (hpast : d.UpdateTimer_pastUpdateTime.getD tickInit < 2 ^ 64)
    (hlt : tickNow < d.UpdateTimer_pastUpdateTime.getD tickInit) :
    subDWORD64 tickNow (d.UpdateTimer_pastUpdateTime.getD tickInit) =
        2 ^ 64 - (d.UpdateTimer_pastUpdateTime.getD tickInit - tickNow) ∧
    0 ≤ UpdateTimer.percentage (2 ^ 64 - (d.UpdateTimer_pastUpdateTime.getD tickInit - tickNow)) ∧
    (60000 < 2 ^ 64 - (d.UpdateTimer_pastUpdateTime.getD tickInit - tickNow) →
      1 < UpdateTimer.percentage
        (2 ^ 64 - (d.UpdateTimer_pastUpdateTime.getD tickInit - tickNow)) ∧
      UpdateTimer Effect tickInit tickNow rnd d =
        DispatchRandomEffect Effect rnd
          { d with
            m_percentage := UpdateTimer.percentage
              (2 ^ 64 - (d.UpdateTimer_pastUpdateTime.getD tickInit - tickNow))
            UpdateTimer_pastUpdateTime := some tickNow } ∧
      ∀ d1, UpdateTimer Effect tickInit tickNow rnd d = some d1 →
        d1.UpdateTimer_pastUpdateTime = some tickNow) ∧
    (¬ 60000 < 2 ^ 64 - (d.UpdateTimer_pastUpdateTime.getD tickInit - tickNow) →
      UpdateTimer Effect tickInit tickNow rnd d =
        some { d with
          m_percentage := UpdateTimer.percentage
            (2 ^ 64 - (d.UpdateTimer_pastUpdateTime.getD tickInit - tickNow))
          UpdateTimer_pastUpdateTime := some (d.UpdateTimer_pastUpdateTime.getD tickInit) }) := by
  have hsub := subDWORD64_of_lt hpast hlt
  refine ⟨hsub, UpdateTimer.percentage_nonneg _, ?_, ?_⟩
  · intro h
    have hfire := UpdateTimer_fire Effect tickInit tickNow rnd d (by rw [hsub]; exact h)
    rw [hsub] at hfire
    refine ⟨(f32_gate _).2 h, hfire, ?_⟩
    intro d1 hd1
    rw [hfire] at hd1
    exact DispatchRandomEffect_pastUpdateTime Effect rnd _ d1 hd1
  · intro h
    have hhold := UpdateTimer_hold Effect tickInit tickNow rnd d (by rw [hsub]; exact h)
    rw [hsub] at hhold
    exact hhold

theorem backward_jump_wraps_witness :
    (100 : Nat) < 100000 ∧
    ∃ d1, UpdateTimer catalogAB 0 100 0
        { EffectDispatcher.ctor with UpdateTimer_pastUpdateTime := some 100000 } = some d1 ∧
      d1.m_activeEffects = [⟨0, "A", 10⟩] ∧
      d1.m_effects = [EffectsCall.New, EffectsCall.StartEffect 0] ∧
      d1.UpdateTimer_pastUpdateTime = some 100 := by
  obtain ⟨_, _, hfire, _⟩ := backward_jump_wraps catalogAB 0 100 0
    { EffectDispatcher.ctor with UpdateTimer_pastUpdateTime := some 100000 }
    (by decide) (by decide)
  obtain ⟨_, heq, _⟩ := hfire (by decide)
  exact ⟨by decide, _, heq.trans rfl, rfl, rfl, rfl⟩

/-- C12 (progress reset): whenever the catalog has the drawn identifier,
`DispatchRandomEffect` returns with `m_percentage = 0`, on a fresh start and on
a refresh alike; and a call of `UpdateTimer` whose comparison fires (so that it
dispatches) returns with `m_percentage = 0`. -/
theorem progress_reset (Effect : EffectType → Option EffectInfo) (rnd : Int)
    (d : EffectDispatcher) (info : EffectInfo) (hinfo : Effect rnd = some info) :
    (∃ d1, DispatchRandomEffect Effect rnd d = some d1 ∧ d1.m_percentage = 0) ∧
    ∀ tickInit tickNow : Nat,
      1 < UpdateTimer.percentage
        (subDWORD64 tickNow (d.UpdateTimer_pastUpdateTime.getD tickInit)) →
      ∃ d1, UpdateTimer Effect tickInit tickNow rnd d = some d1 ∧ d1.m_percentage = 0 := by
  refine ⟨DispatchRandomEffect_percentage Effect rnd d info hinfo, ?_⟩
  intro tickInit tickNow hgate
  rw [UpdateTimer_fire Effect tickInit tickNow rnd d ((f32_gate _).1 hgate)]
  exact DispatchRandomEffect_percentage Effect rnd _ info hinfo

theorem progress_reset_witness :
    (∃ d1, DispatchRandomEffect catalogAB 0
        { EffectDispatcher.ctor with m_percentage := 1 / 2, m_activeEffects := [⟨0, "A", 5⟩] } =
          some d1 ∧ d1.m_percentage = 0) ∧
    ∀ tickInit tickNow : Nat,
      1 < UpdateTimer.percentage (subDWORD64 tickNow
        (({ EffectDispatcher.ctor with
            m_percentage := 1 / 2, m_activeEffects := [⟨0, "A", 5⟩] } :
          EffectDispatcher).UpdateTimer_pastUpdateTime.getD tickInit)) →
      ∃ d1, UpdateTimer catalogAB tickInit tickNow 0
        { EffectDispatcher.ctor with m_percentage := 1 / 2, m_activeEffects := [⟨0, "A", 5⟩] } =
          some d1 ∧ d1.m_percentage = 0 :=
  progress_reset catalogAB 0
    { EffectDispatcher.ctor with m_percentage := 1 / 2, m_activeEffects := [⟨0, "A", 5⟩] }
    ⟨"A", true, 10⟩ rfl

/-- C14 (dispatch never hits the catalog's error path): when the catalog is
defined on every identifier of `[0, EFFECT_ENUM_MAX)`, `EFFECT_ENUM_MAX >= 1`,
and the random source answers within the bounds it was asked for, these
bounds `[0, EFFECT_ENUM_MAX - 1]` are a nonempty range, the drawn
identifier is in `[0, EFFECT_ENUM_MAX)`, the lookup succeeds and
`DispatchRandomEffect` returns. -/
theorem dispatch_total (Effect : EffectType → Option EffectInfo) (EFFECT_ENUM_MAX rnd : Int)
    (d : EffectDispatcher) (hmax : 1 ≤ EFFECT_ENUM_MAX)
    (hcat : ∀ x : Int, 0 ≤ x → x < EFFECT_ENUM_MAX → ∃ info, Effect x = some info)
    (hlo : (DispatchRandomEffect.randomRange EFFECT_ENUM_MAX).1 ≤ rnd)
    (hhi : rnd ≤ (DispatchRandomEffect.randomRange EFFECT_ENUM_MAX).2) :
    (DispatchRandomEffect.randomRange EFFECT_ENUM_MAX).1 ≤
        (DispatchRandomEffect.randomRange EFFECT_ENUM_MAX).2 ∧
    (0 ≤ rnd ∧ rnd < EFFECT_ENUM_MAX) ∧
    (∃ info, Effect rnd = some info) ∧
    ∃ d1, DispatchRandomEffect Effect rnd d = some d1 := by
  simp only [DispatchRandomEffect.randomRange] at hlo hhi ⊢
  have hr : 0 ≤ rnd ∧ rnd < EFFECT_ENUM_MAX := ⟨hlo, by omega⟩
  obtain ⟨info, hinfo⟩ := hcat rnd hr.1 hr.2
  obtain ⟨d1, hd1, _⟩ := DispatchRandomEffect_percentage Effect rnd d info hinfo
  exact ⟨by omega, hr, ⟨info, hinfo⟩, d1, hd1⟩

theorem dispatch_total_witness :
    ((DispatchRandomEffect.randomRange 2).1 ≤ (DispatchRandomEffect.randomRange 2).2 ∧
    (0 ≤ (1 : Int) ∧ (1 : Int) < 2) ∧
    (∃ info, catalogAB 1 = some info) ∧
    ∃ d1, DispatchRandomEffect catalogAB 1 EffectDispatcher.ctor = some d1) :=
  dispatch_total catalogAB 2 1 EffectDispatcher.ctor (by decide)
    (fun x h0 h2 => by
      have hx : x = 0 ∨ x = 1 := by omega
      rcases hx with rfl | rfl
      · exact ⟨_, rfl⟩
      · exact ⟨_, rfl⟩)
    (by decide) (by decide)

/-- C16 (start/stop balance for timed effects): when every timed descriptor has
a duration of at least `1`, in every state reached from a freshly constructed
dispatcher state (empty collection, no start or stop call yet) by a sequence of
dispatches, sweeps, `UpdateEffects`, `UpdateTimer` and `ClearEffects` calls, for
each timed identifier `x` the number of `StartEffect x` calls is the number of
`StopEffect x` calls plus the number of entries for `x`, and that number of
entries is `0` or `1`. -/
theorem start_stop_balance (Effect : EffectType → Option EffectInfo) (ops : List Op)
    (d0 d : EffectDispatcher) (hdur : DurationsPositive Effect)
    (hempty : d0.m_activeEffects = []) (hlog : d0.m_effects = [EffectsCall.New])
    (hrun : run Effect ops d0 = some d)
    (x : EffectType) (info : EffectInfo) (hx : Effect x = some info)
    (ht : info.IsTimed = true) :
    startCount x d.m_effects = stopCount x d.m_effects + activeCount x d.m_activeEffects ∧
    activeCount x d.m_activeEffects ≤ 1 := by
  have hr0 : ∀ a ∈ d0.m_activeEffects, TimerInRange Effect a := by
    rw [hempty]; intro a ha; simp at ha
  have hb0 : Balanced Effect d0 := by
    intro y _ _ _
    rw [hempty, hlog]
    simp [startCount, stopCount, activeCount]
  have hb := Balanced_run Effect hdur ops d0 d hr0 hb0 hrun
  have hnd := NoDupTimed_run Effect ops d0 d (hempty ▸ NoDupTimed_nil Effect) hrun
  exact ⟨hb x info hx ht, activeCount_le_one Effect _ hnd x info hx ht⟩

theorem start_stop_balance_witness :
    run catalogAB
        [Op.dispatch 0, Op.dispatch 0, Op.sweep, Op.dispatch 1, Op.clear, Op.dispatch 0]
        EffectDispatcher.ctor =
      some { EffectDispatcher.ctor with
        m_effects := [EffectsCall.New, EffectsCall.StartEffect 0, EffectsCall.StartEffect 1,
          EffectsCall.StopEffect 0, EffectsCall.StopEffect 1, EffectsCall.StartEffect 0]
        m_activeEffects := [⟨0, "A", 10⟩] } ∧
    (startCount 0 [EffectsCall.New, EffectsCall.StartEffect 0, EffectsCall.StartEffect 1,
          EffectsCall.StopEffect 0, EffectsCall.StopEffect 1, EffectsCall.StartEffect 0] =
      stopCount 0 [EffectsCall.New, EffectsCall.StartEffect 0, EffectsCall.StartEffect 1,
          EffectsCall.StopEffect 0, EffectsCall.StopEffect 1, EffectsCall.StartEffect 0] +
        activeCount 0 [⟨0, "A", 10⟩] ∧
    activeCount 0 [⟨0, "A", 10⟩] ≤ 1) :=
  ⟨by decide,
    start_stop_balance catalogAB
      [Op.dispatch 0, Op.dispatch 0, Op.sweep, Op.dispatch 1, Op.clear, Op.dispatch 0]
      EffectDispatcher.ctor
      { EffectDispatcher.ctor with
        m_effects := [EffectsCall.New, EffectsCall.StartEffect 0, EffectsCall.StartEffect 1,
          EffectsCall.StopEffect 0, EffectsCall.StopEffect 1, EffectsCall.StartEffect 0]
        m_activeEffects := [⟨0, "A", 10⟩] }
      catalogAB_durations rfl rfl (by decide) 0 ⟨"A", true, 10⟩ rfl rfl⟩

/-- C17 (silent purge of non-timed effects): for a non-timed identifier,
`DispatchRandomEffect` starts it and appends its entry with timer `-1`; after
`k < 179` sweeps the entry is still the last of the collection, with timer
`-1 - k`; after 179 sweeps or more it is gone. The executor calls of any number
of sweeps are those the sweeps issue for the other entries: none is issued for
this entry, and no `StopEffect` for the identifier is issued at all when the
other entries for it have a timer `<= 0`, so the start is never matched. -/
theorem nontimed_silent_purge (Effect : EffectType → Option EffectInfo) (rnd : Int)
    (d : EffectDispatcher) (info : EffectInfo) (hinfo : Effect rnd = some info)
    (ht : info.IsTimed = false) :
    ∃ d1, DispatchRandomEffect Effect rnd d = some d1 ∧
      d1.m_activeEffects = d.m_activeEffects ++ [⟨rnd, info.Name, -1⟩] ∧
      d1.m_effects = d.m_effects ++ [EffectsCall.StartEffect rnd] ∧
      (∀ k : Nat, k < 179 → ∃ dk, sweeps k d1 = some dk ∧
        dk.m_activeEffects =
          sweepRef^[k] d.m_activeEffects ++ [⟨rnd, info.Name, -1 - (k : Int)⟩]) ∧
      (∀ n : Nat, 179 ≤ n → ∃ dn, sweeps n d1 = some dn ∧
        dn.m_activeEffects = sweepRef^[n] d.m_activeEffects) ∧
      (∀ n : Nat, ∃ dn, sweeps n d1 = some dn ∧
        dn.m_effects =
          d.m_effects ++ [EffectsCall.StartEffect rnd] ++ sweepStopsN n d.m_activeEffects) ∧
      ((∀ a ∈ d.m_activeEffects, a.EffectType = rnd → a.Timer ≤ 0) →
        ∀ n : Nat, EffectsCall.StopEffect rnd ∉ sweepStopsN n d.m_activeEffects) := by
  have hd := DispatchRandomEffect_fresh Effect rnd d info hinfo (Or.inl ht)
  simp only [ht, Bool.false_eq_true, if_false] at hd
  have hkeep : ∀ k : Nat, k < 179 →
      sweepRef^[k] [(⟨rnd, info.Name, -1⟩ : ActiveEffect)] =
        [⟨rnd, info.Name, -1 - (k : Int)⟩] := by
    intro k hk
    rw [iterate_sweepRef_single _ k (fun j _ hj => by simp only; omega)]
  refine ⟨_, hd, rfl, rfl, ?_, ?_, ?_, ?_⟩
  · intro k hk
    refine ⟨_, sweeps_eq k _, ?_⟩
    dsimp only
    rw [iterate_sweepRef_append, hkeep k hk]
  · intro n hn
    refine ⟨_, sweeps_eq n _, ?_⟩
    dsimp only
    rw [iterate_sweepRef_append, iterate_sweepRef_purge_ge _ rfl n hn, List.append_nil]
  · intro n
    refine ⟨_, sweeps_eq n _, ?_⟩
    dsimp only
    rw [sweepStopsN_append_nonpos n _ _ (by
      intro a ha
      rw [List.mem_singleton] at ha
      subst ha
      show (-1 : Int) ≤ 0
      decide)]
  · intro h n
    exact not_mem_sweepStopsN rnd n _ h

theorem nontimed_silent_purge_witness :
    ∃ d1, DispatchRandomEffect catalogAB 1 EffectDispatcher.ctor = some d1 ∧
      d1.m_activeEffects = [] ++ [⟨1, "B", -1⟩] ∧
      d1.m_effects = [EffectsCall.New] ++ [EffectsCall.StartEffect 1] ∧
      (∀ k : Nat, k < 179 → ∃ dk, sweeps k d1 = some dk ∧
        dk.m_activeEffects = sweepRef^[k] [] ++ [⟨1, "B", -1 - (k : Int)⟩]) ∧
      (∀ n : Nat, 179 ≤ n → ∃ dn, sweeps n d1 = some dn ∧
        dn.m_activeEffects = sweepRef^[n] []) ∧
      (∀ n : Nat, ∃ dn, sweeps n d1 = some dn ∧
        dn.m_effects = [EffectsCall.New] ++ [EffectsCall.StartEffect 1] ++ sweepStopsN n []) ∧
      ((∀ a ∈ ([] : List ActiveEffect), a.EffectType = 1 → a.Timer ≤ 0) →
        ∀ n : Nat, EffectsCall.StopEffect 1 ∉ sweepStopsN n []) :=
  nontimed_silent_purge catalogAB 1 EffectDispatcher.ctor ⟨"B", false, 0⟩ rfl rfl

/-- C18 (timer range invariant): when every timed descriptor has a duration of
at least `1`, in every state reached from an empty collection by a sequence of
dispatches, sweeps, `UpdateEffects`, `UpdateTimer` and `ClearEffects` calls,
every entry has a catalog descriptor; its timer is in `[1, max Duration 180]`
when the descriptor is timed and in `[-179, -1]` when it is not; so no entry
has timer `0` or `<= -180`. -/
theorem timer_range_invariant (Effect : EffectType → Option EffectInfo) (ops : List Op)
    (d0 d : EffectDispatcher) (hdur : DurationsPositive Effect)
    (hempty : d0.m_activeEffects = []) (hrun : run Effect ops d0 = some d) :
    ∀ a ∈ d.m_activeEffects,
      (∃ info, Effect a.EffectType = some info ∧
        (info.IsTimed = true → 1 ≤ a.Timer ∧ a.Timer ≤ max info.Duration 180) ∧
        (info.IsTimed = false → -179 ≤ a.Timer ∧ a.Timer ≤ -1)) ∧
      a.Timer ≠ 0 ∧ -180 < a.Timer := by
  have hr0 : ∀ a ∈ d0.m_activeEffects, TimerInRange Effect a := by
    rw [hempty]; intro a ha; simp at ha
  intro a ha
  have hr := TimerInRange_run Effect hdur ops d0 d hr0 hrun a ha
  refine ⟨hr, ?_⟩
  obtain ⟨info, _, h1, h2⟩ := hr
  cases hti : info.IsTimed with
  | true => have := h1 hti; omega
  | false => have := h2 hti; omega

theorem timer_range_invariant_witness :
    run catalogAB [Op.dispatch 0, Op.sweep, Op.dispatch 1, Op.sweep, Op.dispatch 0]
        EffectDispatcher.ctor =
      some { EffectDispatcher.ctor with
        m_effects := [EffectsCall.New, EffectsCall.StartEffect 0, EffectsCall.StartEffect 1]
        m_activeEffects := [⟨0, "A", 180⟩, ⟨1, "B", -2⟩] } ∧
    ∀ a ∈ ([⟨0, "A", 180⟩, ⟨1, "B", -2⟩] : List ActiveEffect),
      (∃ info, catalogAB a.EffectType = some info ∧
        (info.IsTimed = true → 1 ≤ a.Timer ∧ a.Timer ≤ max info.Duration 180) ∧
        (info.IsTimed = false → -179 ≤ a.Timer ∧ a.Timer ≤ -1)) ∧
      a.Timer ≠ 0 ∧ -180 < a.Timer :=
  ⟨by decide,
    timer_range_invariant catalogAB
      [Op.dispatch 0, Op.sweep, Op.dispatch 1, Op.sweep, Op.dispatch 0]
      EffectDispatcher.ctor
      { EffectDispatcher.ctor with
        m_effects := [EffectsCall.New, EffectsCall.StartEffect 0, EffectsCall.StartEffect 1]
        m_activeEffects := [⟨0, "A", 180⟩, ⟨1, "B", -2⟩] }
      catalogAB_durations rfl (by decide)⟩

end ChaosMod
